import Mathlib

/-!
Verification development for the Certificate Tool repository.

The definitions below are shallow embeddings of the TypeScript source:
strings are Lean strings (lists of characters), JavaScript regular-expression
replacements are modelled by their leftmost-match semantics, JS Map objects
are modelled by association lists with replace-or-append insertion, and the
external capabilities (the LLM call, PDF text extraction, the archive
writer, JSON.parse as a builtin) are modelled by oracle parameters or by a
concrete reference implementation, as noted at each definition.
-/

namespace CertTool

/-- JS whitespace class as used by trim and the \s regex class, restricted to
the ASCII whitespace characters (space, tab, LF, VT, FF, CR), which are the
ones the repository's data can contain. -/
def wsC (c : Char) : Bool :=
  c == ' ' || c == '\t' || c == '\n' || c == '\x0b' || c == '\x0c' || c == '\r'

/-- JS String.prototype.toLowerCase restricted to the ASCII range
(the uppercase letters A-Z are mapped to a-z, everything else is fixed). -/
def jsLower (c : Char) : Char :=
  if 65 ≤ c.toNat ∧ c.toNat ≤ 90 then Char.ofNat (c.toNat + 32) else c

/-- Case-insensitive character comparison, as used by the /i regex flag. -/
def ciEq (a b : Char) : Bool :=
  jsLower a == jsLower b

/-- Case-insensitively, does the pattern p start the list l? -/
def ciLeads : List Char → List Char → Bool
  | [], _ => true
  | _ :: _, [] => false
  | p :: ps, c :: cs => ciEq p c && ciLeads ps cs

/-- Case-insensitive equality of two character lists. -/
def ciEqList (a b : List Char) : Bool :=
  a.length == b.length && ciLeads a b

/-- Remove the trailing run of JS whitespace (JS trimEnd). -/
def rdropWs : List Char → List Char
  | [] => []
  | c :: cs =>
    let r := rdropWs cs
    if r.isEmpty && wsC c then [] else c :: r

/-- JS String.prototype.trim on character lists. -/
def trimWs (l : List Char) : List Char :=
  rdropWs (l.dropWhile wsC)

/-- Helper for collapseWs: the flag records whether the previous character
was whitespace (so the current run has already emitted its single space). -/
def collapseWsAux : Bool → List Char → List Char
  | _, [] => []
  | inWs, c :: cs =>
    if wsC c then
      if inWs then collapseWsAux true cs else ' ' :: collapseWsAux true cs
    else c :: collapseWsAux false cs

/-- Collapse every run of whitespace into a single space:
the replace(/\s+/g, one space) step. -/
def collapseWs (l : List Char) : List Char :=
  collapseWsAux false l

/-- Strip the trademark, registered and copyright glyphs:
the replace of the three symbols with the empty string, global flag. -/
def stripSyms (l : List Char) : List Char :=
  l.filter (fun c => !(c == '™' || c == '®' || c == '©'))

/-- The literal characters of the token removed by the copy-removal step. -/
def copyTok : List Char := "(copy)".data

/-- Does the regex of whitespace-run-then-copy-token match at position i of l?
The whitespace part is greedy, and backtracking inside a whitespace run can
never succeed because the token starts with a parenthesis, so the match at i
succeeds exactly when the maximal whitespace run starting at i is immediately
followed by the token (case-insensitively). -/
def copyMatchAt (l : List Char) (i : Nat) : Bool :=
  ciLeads copyTok ((l.drop i).dropWhile wsC)

/-- The replace (non-global, /i) of whitespace-run-then-copy-token with the
empty string: remove the leftmost match, leave everything else unchanged. -/
def removeCopyL (l : List Char) : List Char :=
  match (List.range (l.length + 1)).find? (fun i => copyMatchAt l i) with
  | some i => l.take i ++ (((l.drop i).dropWhile wsC).drop 6)
  | none => l

/-- The replace (non-global, /i, end-anchored) of one-or-more whitespace
characters followed by a 94-percent or v94 token at the end of the string:
when the string ends with such a token preceded by whitespace, the token and
the whole adjacent whitespace run are removed. -/
def removeSuffixL (l : List Char) : List Char :=
  if l.length ≥ 4 then
    let last3 := l.drop (l.length - 3)
    if ciEqList last3 "94%".data || ciEqList last3 "v94".data then
      let pre := l.take (l.length - 3)
      match pre.getLast? with
      | some ch => if wsC ch then rdropWs pre else l
      | none => l
    else l
  else l

/-- The full normalization pipeline applied after the null/empty guard. -/
def normalizePipeline (l : List Char) : List Char :=
  trimWs (collapseWs (stripSyms ((removeSuffixL (removeCopyL (trimWs l))).map jsLower)))

/-- normalizeGameName from the source: returns the empty string for a null or
empty name, otherwise trims, removes the first copy token, removes a trailing
version suffix, lower-cases, strips symbol glyphs, collapses whitespace and
trims again. -/
def normalizeGameName (name : Option String) : String :=
  match name with
  | none => ""
  | some s => if s = "" then "" else String.mk (normalizePipeline s.data)

/-- Case-sensitive substring test on Lean strings (JS String.includes). -/
def containsSub (s sub : String) : Bool :=
  (List.range (s.data.length + 1)).any (fun i => sub.data.isPrefixOf (s.data.drop i))

/-- FileDetail from types.ts. -/
structure FileDetail where
  name : String
  md5 : Option String
  sha1 : Option String
deriving DecidableEq, Repr

/-- GameInstanceData from types.ts: gameCode is the IMS code or null. -/
structure GameInstanceData where
  gameName : Option String
  gameCode : Option String
  files : List FileDetail
deriving DecidableEq, Repr

/-- ExtractedGeminiInfo from types.ts. -/
structure ExtractedGeminiInfo where
  reportNumber : Option String
  certificationDate : Option String
  supplierRegistrationNumber : Option String
  gameInstances : List GameInstanceData
deriving DecidableEq, Repr

/-- The status union of ProcessedFileData from types.ts. -/
inductive FileStatus where
  | pending
  | processing
  | completed
  | error
  | queued
deriving DecidableEq, Repr

/-- ProcessedFileData from types.ts (the originalFile handle lives in the
separate originalFilesMap store, modelled elsewhere). -/
structure ProcessedFileData where
  id : String
  pdfFileName : String
  status : FileStatus
  errorMessage : Option String
  reportNumber : Option String
  certificationDate : Option String
  supplierRegistrationNumber : Option String
  extractedInstances : List GameInstanceData
deriving DecidableEq, Repr

/-- ProviderInfo from types.ts. -/
structure ProviderInfo where
  provider : String
  portalLiveDate : Option String
  imsGameCode : Option String
deriving DecidableEq, Repr

/-- JS Map.get on an association-list model of a Map (keys unique in any map
the program builds, so first-match lookup agrees with the Map). -/
def mapGet {α : Type} (m : List (String × α)) (k : String) : Option α :=
  (m.find? (fun p => p.1 == k)).map (fun p => p.2)

/-- JS Map.has. -/
def mapHas {α : Type} (m : List (String × α)) (k : String) : Bool :=
  m.any (fun p => p.1 == k)

/-- JS Map.set: replace the entry in place when the key is present,
append a new entry otherwise (JS Maps preserve insertion order). -/
def mapSet {α : Type} (m : List (String × α)) (k : String) (v : α) :
    List (String × α) :=
  if mapHas m k then m.map (fun p => if p.1 == k then (k, v) else p)
  else m ++ [(k, v)]

/-- JS truthiness of a string-or-null value: null and the empty string are
falsy, every other string is truthy. -/
def truthy : Option String → Bool
  | none => false
  | some s => s != ""

/-- JS String.prototype.trim on Lean strings. -/
def strTrim (s : String) : String :=
  String.mk (trimWs s.data)

/-- Split a character list on a separator character (JS String.split with a
single-character separator). -/
def splitOnCharL (sep : Char) : List Char → List (List Char)
  | [] => [[]]
  | c :: cs =>
    match splitOnCharL sep cs with
    | [] => [[c]]
    | h :: t => if c == sep then [] :: h :: t else (c :: h) :: t

/-- JS String.prototype.split with a single-character separator. -/
def jsSplit (s : String) (sep : Char) : List String :=
  (splitOnCharL sep s.data).map String.mk

/-- The per-line acceptance logic of the Provider Table loader
(ExcelDataProvider.handleParseData): a line is accepted when it has at least
six tab-separated fields, a nonempty trimmed name and provider, and a
nonempty normalized key; the accepted entry is keyed by the normalized name. -/
def lineEntry (line : String) : Option (String × ProviderInfo) :=
  let parts := jsSplit line '\t'
  if parts.length ≥ 6 then
    let gameName := strTrim (parts.getD 0 "")
    let providerName := strTrim (parts.getD 1 "")
    let portalLiveDate := strTrim (parts.getD 3 "")
    let imsGameCode := strTrim (parts.getD 5 "")
    if gameName != "" && providerName != "" then
      let normalizedKey := normalizeGameName (some gameName)
      if normalizedKey != "" then
        some (normalizedKey,
          { provider := providerName
            portalLiveDate := if portalLiveDate = "" then none else some portalLiveDate
            imsGameCode := if imsGameCode = "" then none else some imsGameCode })
      else none
    else none
  else none

/-- JS String.prototype.toLowerCase on Lean strings (ASCII range). -/
def strLower (s : String) : String :=
  String.mk (s.data.map jsLower)

/-- The data lines of the pasted provider text: the first line is skipped as
a header when it is nonempty and its lower-cased form contains the
game-provider marker. -/
def dataLines (text : String) : List String :=
  let lines := jsSplit text '\n'
  match lines with
  | [] => []
  | l0 :: rest =>
    if l0 != "" && containsSub (strLower l0) "game provider" then rest
    else lines

/-- handleParseData from ExcelDataProvider: fold the accepted lines into a
fresh map (last occurrence of a key wins) and count every accepted line. -/
def parseProviderData (text : String) : List (String × ProviderInfo) × Nat :=
  (dataLines text).foldl
    (fun acc line =>
      match lineEntry line with
      | some (k, v) => (mapSet acc.1 k v, acc.2 + 1)
      | none => acc)
    ([], 0)

/-- The normalized keys of the accepted lines, in input order and with
multiplicity (one entry per accepted line). -/
def acceptedKeys (text : String) : List String :=
  (dataLines text).filterMap (fun line => (lineEntry line).map (fun p => p.1))

/-- The first pass of the authoritative-code-map construction in
ReportTable: insert every Provider Table entry whose imsGameCode is truthy. -/
def authPass1 (pmap : List (String × ProviderInfo)) : List (String × String) :=
  pmap.foldl
    (fun acc p =>
      match p.2.imsGameCode with
      | some c => if c != "" then mapSet acc p.1 c else acc
      | none => acc)
    []

/-- One instance step of the second pass: fill the gap for the instance's
normalized key with its extracted code when the key is nonempty, not yet
present, and the code truthy. -/
def authInstStep (acc : List (String × String)) (inst : GameInstanceData) :
    List (String × String) :=
  let k := normalizeGameName inst.gameName
  if k != "" && !mapHas acc k && truthy inst.gameCode then
    mapSet acc k (inst.gameCode.getD "")
  else acc

/-- buildAuthoritativeImsCodeMap: the authoritative game-code map built in
ReportTable's clipboard exports — Provider Table codes first, then gaps
filled by the first extracted code in file-then-instance order over
completed files. -/
def buildAuthoritativeImsCodeMap (pmap : List (String × ProviderInfo))
    (files : List ProcessedFileData) : List (String × String) :=
  files.foldl
    (fun acc fe =>
      if fe.status == .completed then fe.extractedInstances.foldl authInstStep acc
      else acc)
    (authPass1 pmap)

/-- JS String.prototype.endsWith. -/
def endsWithS (s suf : String) : Bool :=
  suf.data.isSuffixOf s.data

/-- The per-instance group resolution of handleExportZip: provider lookup by
normalized key, then the gameCode-suffix fallback (a code ending in the mcg
suffix maps to Games Global, the prg suffix to Pragmatic), then the trimmed
provider name with Uncategorized as the final fallback. -/
def folderOfInstance (pmap : List (String × ProviderInfo))
    (inst : GameInstanceData) : String :=
  let gameNameKey := normalizeGameName inst.gameName
  let fromTable : Option String :=
    match mapGet pmap gameNameKey with
    | some info => if info.provider != "" then some info.provider else none
    | none => none
  let providerName : Option String :=
    match fromTable with
    | some p => some p
    | none =>
      match inst.gameCode with
      | some gc =>
        if gc != "" then
          if endsWithS gc "_mcg" then some "Games Global"
          else if endsWithS gc "_prg" then some "Pragmatic"
          else none
        else none
      | none => none
  match providerName with
  | some pn => if strTrim pn != "" then strTrim pn else "Uncategorized"
  | none => "Uncategorized"

/-- One instance step of the export loop: place the file's bytes (identified
here by the file's stored name) into the resolved folder unless this file was
already placed into that folder. -/
def exportInstStep (pmap : List (String × ProviderInfo)) (origName : String)
    (st : List (String × String) × List String) (inst : GameInstanceData) :
    List (String × String) × List String :=
  let folderName := folderOfInstance pmap inst
  if st.2.contains folderName then st
  else (st.1 ++ [(folderName, origName)], st.2 ++ [folderName])

/-- One completed-file step of the export loop: skip the file when its bytes
are absent from the original-files store; otherwise run the per-instance
placement with a fresh per-file folder set, apply the Uncategorized fallback
when no folder received the file, and tally the file when at least one
folder did. -/
def exportFileStep (store : List (String × String))
    (pmap : List (String × ProviderInfo))
    (acc : List (String × String) × Nat) (pf : ProcessedFileData) :
    List (String × String) × Nat :=
  match mapGet store pf.id with
  | none => acc
  | some origName =>
    let st :=
      if pf.extractedInstances.isEmpty then (acc.1, ([] : List String))
      else pf.extractedInstances.foldl (exportInstStep pmap origName) (acc.1, [])
    let st :=
      if st.2.isEmpty then (st.1 ++ [("Uncategorized", origName)], ["Uncategorized"])
      else st
    (st.1, acc.2 + (if st.2.isEmpty then 0 else 1))

/-- The pure core of handleExportZip: the archive placements (folder name
paired with stored file name) over the completed files, in processing order,
together with the exported-file tally. The surrounding guards, the archive
writer and the download trigger are external to this computation. -/
def handleExportZip (files : List ProcessedFileData)
    (store : List (String × String)) (pmap : List (String × ProviderInfo)) :
    List (String × String) × Nat :=
  (files.filter (fun f => f.status == .completed)).foldl
    (exportFileStep store pmap) ([], 0)

/-- The folders of l not already in acc, first occurrences only, in order. -/
def newFolders (acc : List String) : List String → List String
  | [] => []
  | x :: xs => if acc.contains x then newFolders acc xs else x :: newFolders (acc ++ [x]) xs

/-- First-occurrence deduplication of a list of folder names. -/
def firstDedup (l : List String) : List String :=
  newFolders [] l

/-- The distinct groups a completed file resolves to: the first-occurrence
deduplication of its per-instance folders, or the Uncategorized fallback when
it has no instances. -/
def resolvedFolders (pmap : List (String × ProviderInfo))
    (insts : List GameInstanceData) : List String :=
  if insts.isEmpty then ["Uncategorized"]
  else firstDedup (insts.map (folderOfInstance pmap))

/-- The outcome of the per-file processing work (PDF/image conversion plus the
extraction request) for one file, modelled as an oracle from file id to a
result or a thrown error message; the lookup of the original file in the
store is the in-repository part of that step. -/
def processFileResult (store : List String)
    (oracle : String → Except String ExtractedGeminiInfo) (id : String) :
    Except String ExtractedGeminiInfo :=
  if store.contains id then oracle id
  else Except.error "Original file not found for processing."

/-- The final record of one processed file given its processing outcome:
success copies the extracted fields and marks completed, an error marks error
and stores the error's message. -/
def applyOutcome (f : ProcessedFileData)
    (r : Except String ExtractedGeminiInfo) : ProcessedFileData :=
  match r with
  | Except.ok d =>
    { f with
      reportNumber := d.reportNumber
      certificationDate := d.certificationDate
      supplierRegistrationNumber := d.supplierRegistrationNumber
      extractedInstances := d.gameInstances
      status := .completed }
  | Except.error m => { f with status := .error, errorMessage := some m }

/-- One iteration of the batch loop of handleStartProcessing: mark the file
processing, run its work, then record the outcome — each update targets the
file by id over the whole collection. -/
def stepProcess (store : List String)
    (oracle : String → Except String ExtractedGeminiInfo)
    (st : List ProcessedFileData) (f : ProcessedFileData) :
    List ProcessedFileData :=
  let st1 := st.map (fun x => if x.id == f.id then { x with status := .processing } else x)
  match processFileResult store oracle f.id with
  | Except.ok d =>
    st1.map (fun x =>
      if x.id == f.id then
        { x with
          reportNumber := d.reportNumber
          certificationDate := d.certificationDate
          supplierRegistrationNumber := d.supplierRegistrationNumber
          extractedInstances := d.gameInstances
          status := .completed }
      else x)
  | Except.error m =>
    st1.map (fun x =>
      if x.id == f.id then { x with status := .error, errorMessage := some m } else x)

/-- handleStartProcessing: with no credential every queued file is marked
error without any processing; otherwise the currently queued files form the
fixed work list and are processed strictly one at a time, in order, each
failure confined to its own file. -/
def handleStartProcessing (apiKey : String) (files : List ProcessedFileData)
    (store : List String)
    (oracle : String → Except String ExtractedGeminiInfo) :
    List ProcessedFileData :=
  if apiKey = "" then
    files.map (fun f =>
      if f.status == .queued then { f with status := .error, errorMessage := some "API Key not set." }
      else f)
  else
    let filesToProcess := files.filter (fun f => f.status == .queued)
    filesToProcess.foldl (stepProcess store oracle) files

/-- A parsed JSON value (the possible results of JSON.parse): numbers are
kept as their lexemes since no repository code inspects numeric values. -/
inductive JSVal where
  | null
  | bool (b : Bool)
  | num (lexeme : String)
  | str (s : String)
  | arr (elems : List JSVal)
  | obj (fields : List (String × JSVal))

/-- JS property access returning undefined (none) for a missing key or a
non-object receiver; the null receiver is handled by the caller since JS
throws there. -/
def jsGetField : JSVal → String → Option JSVal
  | JSVal.obj kvs, k => mapGet kvs k
  | _, _ => none

/-- The nullish-coalescing operator with null right operand (x ?? null):
undefined and null become null, everything else passes through. -/
def jsCoalesceNull : Option JSVal → JSVal
  | none => JSVal.null
  | some JSVal.null => JSVal.null
  | some v => v

/-- The explicit undefined-to-null defaulting used for the hash fields
(x === undefined ? null : x). -/
def jsUndefToNull : Option JSVal → JSVal
  | none => JSVal.null
  | some v => v

/-- A validated file entry: name is a string, the hashes stay raw JSON
values defaulted to null. -/
structure FileDetailJ where
  name : String
  md5 : JSVal
  sha1 : JSVal

/-- A validated game instance as built by the validator. -/
structure GameInstanceJ where
  gameName : JSVal
  gameCode : JSVal
  files : List FileDetailJ

/-- The validator's output structure. -/
structure ExtractedInfoJ where
  reportNumber : JSVal
  certificationDate : JSVal
  supplierRegistrationNumber : JSVal
  gameInstances : List GameInstanceJ

/-- The modelled message of the TypeError JS raises on property access on
null (engine wording abstracted). -/
def typeErrorMsg : String := "TypeError: Cannot read properties of null"

/-- Is the value the JSON null (property access on it throws in JS)? -/
def jsIsNull : JSVal → Bool
  | JSVal.null => true
  | _ => false

/-- Array.isArray applied to a property of the value. -/
def isArrField (v : JSVal) (k : String) : Bool :=
  match jsGetField v k with
  | some (JSVal.arr _) => true
  | _ => false

/-- Does the value's name property hold a string (typeof check)? -/
def isStrName (f : JSVal) : Bool :=
  match jsGetField f "name" with
  | some (JSVal.str _) => true
  | _ => false

/-- The elements of the value's gameInstances array (empty when absent or
not an array — the alternative-empty-array fallback of the source). -/
def gameInstancesOf (v : JSVal) : List JSVal :=
  match jsGetField v "gameInstances" with
  | some (JSVal.arr l) => l
  | _ => []

/-- The elements of the instance's files array (empty when absent or not an
array — the alternative-empty-array fallback of the source). -/
def filesOf (inst : JSVal) : List JSVal :=
  match jsGetField inst "files" with
  | some (JSVal.arr l) => l
  | _ => []

/-- The validator's file-entry loop: a null entry raises the property-access
TypeError, an entry whose name is not a string raises the schema error. -/
def checkFiles : List JSVal → Except String Unit
  | [] => Except.ok ()
  | f :: fs =>
    if jsIsNull f then Except.error typeErrorMsg
    else if isStrName f then checkFiles fs
    else Except.error "Parsed JSON for a file entry is invalid (missing name)."

/-- The validator's instance loop: a null instance raises the TypeError,
an instance missing the gameName or gameCode key or whose files is not an
array raises the schema error, then the file entries are checked. -/
def checkInstances : List JSVal → Except String Unit
  | [] => Except.ok ()
  | inst :: rest =>
    if jsIsNull inst then Except.error typeErrorMsg
    else if (jsGetField inst "gameName").isNone || (jsGetField inst "gameCode").isNone ||
        !(isArrField inst "files") then
      Except.error "Parsed JSON for a game instance is invalid (missing gameName, gameCode, or files array)."
    else
      match checkFiles (filesOf inst) with
      | Except.ok _ => checkInstances rest
      | Except.error e => Except.error e

/-- The validator's construction of a file entry once checks passed. -/
def buildFile (f : JSVal) : FileDetailJ :=
  { name :=
      match jsGetField f "name" with
      | some (JSVal.str s) => s
      | _ => ""
    md5 := jsUndefToNull (jsGetField f "md5")
    sha1 := jsUndefToNull (jsGetField f "sha1") }

/-- The validator's construction of a game instance once checks passed. -/
def buildInstance (inst : JSVal) : GameInstanceJ :=
  { gameName := jsCoalesceNull (jsGetField inst "gameName")
    gameCode := jsCoalesceNull (jsGetField inst "gameCode")
    files := (filesOf inst).map buildFile }

/-- validateAndStructureData from the extraction service: raises (as an
error value) when a required top-level key is missing or gameInstances is
not an array, when an instance is malformed, or when a file entry has no
string name; on success returns the structure with nullish fields defaulted
to null. -/
def validateAndStructureData (parsedData : JSVal) : Except String ExtractedInfoJ :=
  if jsIsNull parsedData then Except.error typeErrorMsg
  else if (jsGetField parsedData "reportNumber").isNone ||
      (jsGetField parsedData "certificationDate").isNone ||
      (jsGetField parsedData "supplierRegistrationNumber").isNone ||
      !(isArrField parsedData "gameInstances") then
    Except.error "Parsed JSON does not match expected structure (missing reportNumber, certificationDate, supplierRegistrationNumber, or gameInstances array)."
  else
    match checkInstances (gameInstancesOf parsedData) with
    | Except.error e => Except.error e
    | Except.ok _ =>
      Except.ok
        { reportNumber := jsCoalesceNull (jsGetField parsedData "reportNumber")
          certificationDate := jsCoalesceNull (jsGetField parsedData "certificationDate")
          supplierRegistrationNumber := jsCoalesceNull (jsGetField parsedData "supplierRegistrationNumber")
          gameInstances := (gameInstancesOf parsedData).map buildInstance }

end CertTool

namespace CertTool

/-- JSON whitespace. -/
def jsonWsC (c : Char) : Bool :=
  c == ' ' || c == '\t' || c == '\n' || c == '\r'

/-- Hexadecimal digit value. -/
def hexVal (c : Char) : Option Nat :=
  if '0' ≤ c ∧ c ≤ '9' then some (c.toNat - 48)
  else if 'a' ≤ c ∧ c ≤ 'f' then some (c.toNat - 87)
  else if 'A' ≤ c ∧ c ≤ 'F' then some (c.toNat - 55)
  else none

/-- Scan a JSON string body after the opening quote: returns the decoded
characters and the input following the closing quote. -/
def parseStringBody : List Char → Option (List Char × List Char)
  | [] => none
  | '"' :: rest => some ([], rest)
  | '\\' :: 'u' :: h1 :: h2 :: h3 :: h4 :: rest =>
    match hexVal h1, hexVal h2, hexVal h3, hexVal h4 with
    | some a, some b, some c, some d =>
      (parseStringBody rest).map (fun (p : List Char × List Char) =>
        (Char.ofNat (((a * 16 + b) * 16 + c) * 16 + d) :: p.1, p.2))
    | _, _, _, _ => none
  | '\\' :: e :: rest =>
    (match e with
     | '"' => some '"'
     | '\\' => some '\\'
     | '/' => some '/'
     | 'b' => some '\x08'
     | 'f' => some '\x0c'
     | 'n' => some '\n'
     | 'r' => some '\r'
     | 't' => some '\t'
     | _ => none).bind (fun c =>
       (parseStringBody rest).map (fun (p : List Char × List Char) => (c :: p.1, p.2)))
  | c :: rest =>
    if c.toNat < 32 then none
    else (parseStringBody rest).map (fun (p : List Char × List Char) => (c :: p.1, p.2))

/-- Decimal digit test. -/
def digitC (c : Char) : Bool :=
  '0' ≤ c && c ≤ '9'

/-- Lex the optional exponent of a JSON number: returns the exponent lexeme
(possibly empty) and the rest, or none when an exponent marker is present
but malformed. -/
def parseExpPart (l : List Char) : Option (List Char × List Char) :=
  match l with
  | c :: r =>
    if c == 'e' || c == 'E' then
      let (sgn, r2) :=
        match r with
        | '+' :: rr => (['+'], rr)
        | '-' :: rr => (['-'], rr)
        | _ => (([] : List Char), r)
      let ds := r2.takeWhile digitC
      if ds.isEmpty then none
      else some (c :: (sgn ++ ds), r2.dropWhile digitC)
    else some ([], l)
  | [] => some ([], l)

/-- Lex the optional fraction of a JSON number. -/
def parseFracPart (l : List Char) : Option (List Char × List Char) :=
  match l with
  | '.' :: r =>
    let ds := r.takeWhile digitC
    if ds.isEmpty then none else some ('.' :: ds, r.dropWhile digitC)
  | _ => some ([], l)

/-- Lex a JSON number: optional minus, integer part without leading zeros,
optional fraction, optional exponent. Returns the lexeme and the rest. -/
def parseNumberLex (l : List Char) : Option (List Char × List Char) :=
  let (neg, l1) :=
    match l with
    | '-' :: r => (['-'], r)
    | _ => (([] : List Char), l)
  match l1 with
  | [] => none
  | c :: _ =>
    if !digitC c then none
    else
      let intPart := l1.takeWhile digitC
      let l2 := l1.dropWhile digitC
      if intPart.length > 1 && intPart.headD '0' == '0' then none
      else
        match parseFracPart l2 with
        | none => none
        | some (fracPart, l3) =>
          match parseExpPart l3 with
          | none => none
          | some (expPart, l4) => some (neg ++ intPart ++ fracPart ++ expPart, l4)

mutual

/-- The recursive JSON value grammar, fuel-indexed (the fuel models the
parser's recursion and is chosen large enough for any input of the given
length): parse one value and return it with the remaining input. -/
def parseValue : Nat → List Char → Except String (JSVal × List Char)
  | 0, _ => Except.error "JSON nesting too deep"
  | fuel + 1, l =>
    let l := l.dropWhile jsonWsC
    match l with
    | [] => Except.error "Unexpected end of JSON input"
    | '{' :: rest =>
      (match (rest.dropWhile jsonWsC) with
       | '}' :: r2 => Except.ok (JSVal.obj [], r2)
       | _ => (parseObjFields fuel rest).map (fun p => (JSVal.obj p.1, p.2)))
    | '[' :: rest =>
      (match (rest.dropWhile jsonWsC) with
       | ']' :: r2 => Except.ok (JSVal.arr [], r2)
       | _ => (parseArrElems fuel rest).map (fun p => (JSVal.arr p.1, p.2)))
    | '"' :: rest =>
      (match parseStringBody rest with
       | some (cs, r2) => Except.ok (JSVal.str (String.mk cs), r2)
       | none => Except.error "Bad string in JSON")
    | 't' :: rest =>
      if "rue".data.isPrefixOf rest then Except.ok (JSVal.bool true, rest.drop 3)
      else Except.error "Unexpected token in JSON"
    | 'f' :: rest =>
      if "alse".data.isPrefixOf rest then Except.ok (JSVal.bool false, rest.drop 4)
      else Except.error "Unexpected token in JSON"
    | 'n' :: rest =>
      if "ull".data.isPrefixOf rest then Except.ok (JSVal.null, rest.drop 3)
      else Except.error "Unexpected token in JSON"
    | c :: _ =>
      if digitC c || c == '-' then
        match parseNumberLex l with
        | some (lex, r2) => Except.ok (JSVal.num (String.mk lex), r2)
        | none => Except.error "Bad number in JSON"
      else Except.error "Unexpected token in JSON"

/-- Parse one-or-more comma-separated array elements up to the closing
bracket. -/
def parseArrElems : Nat → List Char → Except String (List JSVal × List Char)
  | 0, _ => Except.error "JSON nesting too deep"
  | fuel + 1, l => do
    let (v, r) ← parseValue fuel l
    let r := r.dropWhile jsonWsC
    match r with
    | ']' :: r2 => Except.ok ([v], r2)
    | ',' :: r2 =>
      (parseArrElems fuel r2).map (fun p => (v :: p.1, p.2))
    | _ => Except.error "Expected comma or closing bracket in JSON array"

/-- Parse one-or-more comma-separated object members up to the closing
brace. -/
def parseObjFields : Nat → List Char → Except String (List (String × JSVal) × List Char)
  | 0, _ => Except.error "JSON nesting too deep"
  | fuel + 1, l =>
    match l.dropWhile jsonWsC with
    | '"' :: rest =>
      (match parseStringBody rest with
       | none => Except.error "Bad string in JSON"
       | some (key, r1) =>
         match r1.dropWhile jsonWsC with
         | ':' :: r2 => do
           let (v, r3) ← parseValue fuel r2
           let r3 := r3.dropWhile jsonWsC
           match r3 with
           | '}' :: r4 => Except.ok ([(String.mk key, v)], r4)
           | ',' :: r4 =>
             (parseObjFields fuel r4).map (fun p => ((String.mk key, v) :: p.1, p.2))
           | _ => Except.error "Expected comma or closing brace in JSON object"
         | _ => Except.error "Expected colon in JSON object")
    | _ => Except.error "Expected string key in JSON object"

end

/-- The modelled JSON.parse builtin: parse one value and require only
whitespace after it. The error strings abstract the engine's messages. -/
def jsonParse (s : String) : Except String JSVal :=
  match parseValue (s.data.length * 2 + 4) s.data with
  | Except.error e => Except.error e
  | Except.ok (v, rest) =>
    if (rest.dropWhile jsonWsC).isEmpty then Except.ok v
    else Except.error "Unexpected non-whitespace character after JSON data"

/-- Word-character class of the regex (letters, digits, underscore). -/
def wordC (c : Char) : Bool :=
  c.isAlphanum || c == '_'

/-- The code-fence stripping applied to the trimmed model response: when the
trimmed text both starts and ends with a triple-backtick fence, the regex
captures what lies between the (optional) language tag plus following
whitespace and the whitespace preceding the closing fence; a nonempty
capture, trimmed, replaces the text, and otherwise the trimmed text is kept
unchanged. -/
def stripFence (t : String) : String :=
  let s := strTrim t
  let l := s.data
  if l.length ≥ 6 && "```".data.isPrefixOf l && "```".data.isSuffixOf l then
    let inner := (l.drop 3).take (l.length - 6)
    let afterLang := (inner.dropWhile wordC).dropWhile wsC
    let middle := rdropWs afterLang
    if middle.isEmpty then s
    else strTrim (String.mk middle)
  else s

/-- The result of one model request: the response text, or a thrown error
carrying a message (network failures, upstream status errors, rejected
credentials). The model call is an external capability, supplied as an
oracle from attempt number to result. -/
inductive GenResult where
  | ok (text : String)
  | thrown (msg : String)

/-- The observable outcome of one call of an extraction entry point: the
returned value or raised error, the number of model requests made, and the
inter-attempt delays (in milliseconds) that were awaited. -/
structure RunOutcome where
  result : Except String ExtractedInfoJ
  attempts : Nat
  delays : List Nat

/-- MAX_RETRIES from the extraction service. -/
def MAX_RETRIES : Nat := 3

/-- RETRY_DELAY_MS from the extraction service. -/
def RETRY_DELAY_MS : Nat := 1000

/-- JS String.prototype.substring(0, n). -/
def strTake (s : String) (n : Nat) : String :=
  String.mk (s.data.take n)

/-- The message wrapping a parse or validation failure inside the attempt's
try block. -/
def wrapMsg (mode : String) (raw : String) (e : String) : String :=
  "Failed to parse/validate JSON from AI (" ++ mode ++ "). Raw: " ++
    strTake raw 1000 ++ ". Err: " ++ e

/-- The body of one attempt: a thrown model error propagates; a response is
trimmed, fence-stripped and JSON-parsed, then validated, and a parse or
validation failure is rethrown wrapped in the raw-prefix message. -/
def tryAttempt (mode : String) (oracle : Nat → GenResult) (n : Nat) :
    Except String ExtractedInfoJ :=
  match oracle n with
  | GenResult.thrown m => Except.error m
  | GenResult.ok text =>
    match jsonParse (stripFence text) with
    | Except.error e => Except.error (wrapMsg mode text e)
    | Except.ok v =>
      match validateAndStructureData v with
      | Except.error e => Except.error (wrapMsg mode text e)
      | Except.ok d => Except.ok d

/-- The retry loop shared by both extraction entry points: on success return;
an error whose message contains the invalid-credential marker is rethrown
immediately with the fixed invalid-key message; an error whose message
contains the status-500 marker awaits a delay scaled by the attempt number
when attempts remain; every other error also proceeds to the next attempt
(the catch block falls through without rethrowing); after the last attempt
the last error is thrown. -/
def extractLoop (mode : String) (oracle : Nat → GenResult) :
    Nat → Nat → Option String → List Nat → Nat → RunOutcome
  | 0, _, lastError, delays, attemptsMade =>
    { result := Except.error
        (lastError.getD ("Failed to extract info from " ++ mode ++ " after 3 attempts."))
      attempts := attemptsMade
      delays := delays }
  | remaining + 1, attempt, _, delays, attemptsMade =>
    match tryAttempt mode oracle attempt with
    | Except.ok d => { result := Except.ok d, attempts := attemptsMade + 1, delays := delays }
    | Except.error m =>
      if containsSub m "API key not valid" then
        { result := Except.error "The provided API Key is invalid or has been rejected by Google."
          attempts := attemptsMade + 1
          delays := delays }
      else if containsSub m "500" && decide (attempt < MAX_RETRIES) then
        extractLoop mode oracle remaining (attempt + 1) (some m)
          (delays ++ [RETRY_DELAY_MS * attempt]) (attemptsMade + 1)
      else
        extractLoop mode oracle remaining (attempt + 1) (some m) delays (attemptsMade + 1)

/-- extractInfoFromText from the extraction service, with the model call
abstracted as an oracle per attempt. -/
def extractInfoFromText (apiKey : String) (oracle : Nat → GenResult) : RunOutcome :=
  if apiKey = "" then { result := Except.error "API Key is not provided.", attempts := 0, delays := [] }
  else extractLoop "text" oracle MAX_RETRIES 1 none [] 0

/-- extractInfoFromImage from the extraction service: identical control flow,
image-mode messages. -/
def extractInfoFromImage (apiKey : String) (oracle : Nat → GenResult) : RunOutcome :=
  if apiKey = "" then { result := Except.error "API Key is not provided.", attempts := 0, delays := [] }
  else extractLoop "image" oracle MAX_RETRIES 1 none [] 0

end CertTool

namespace CertTool

example : normalizeGameName (some "Mega Fortune™ (copy) 94%") = "mega fortune" := by decide

example : normalizeGameName (some "a (copy) (copy)") = "a (copy)" := by decide

example : normalizeGameName (some "  Big   Bass V94 ") = "big bass" := by decide

/-- C2 counterexample: normalization is not idempotent — the copy-removal
regex has no global flag, so one application of normalize on a name with two
copy tokens removes only the first; a second application removes the second,
changing the result. -/
theorem normalize_not_idempotent :
    normalizeGameName (some "a (copy) (copy)") = "a (copy)" ∧
    normalizeGameName (some (normalizeGameName (some "a (copy) (copy)"))) = "a" ∧
    normalizeGameName (some (normalizeGameName (some "a (copy) (copy)"))) ≠
      normalizeGameName (some "a (copy) (copy)") := by
  refine ⟨by decide, by decide, by decide⟩

/-- C7 counterexample: the copy-removal step removes only the leftmost copy
token, so the normalized form of a name with two copy tokens still contains
a copy token, contradicting removal of every occurrence. -/
theorem copy_token_survives :
    containsSub (normalizeGameName (some "a (copy) (copy)")) "(copy)" = true := by
  decide

/-- A model-call oracle whose every response is a fixed non-JSON text. -/
def parseFailOracle : Nat → GenResult :=
  fun _ => GenResult.ok "not json"

/-- C4 counterexample: a response whose text is not valid JSON does consume
retry attempts — with such a response on every attempt the client makes 3
model requests, not 1, because the catch block falls through to the next
loop iteration for every non-credential error. -/
theorem parse_failure_retried_counterexample :
    (jsonParse (stripFence "not json")).isOk = false ∧
    (extractInfoFromText "key" parseFailOracle).attempts = 3 ∧
    (extractInfoFromImage "key" parseFailOracle).attempts = 3 := by
  refine ⟨by decide, by decide, by decide⟩

/-- C4 amended: for every response text that is not valid JSON (and whose
wrapped parse-failure message contains neither the status-500 marker nor the
invalid-credential marker), each attempt consumes retry budget without any
delay; with such a response on every attempt, both entry points make exactly
MAX_RETRIES model requests and surface the wrapped parse error of the last
attempt. -/
theorem parse_failures_consume_retries (apiKey : String) (oracle : Nat → GenResult)
    (t e : String)
    (hkey : apiKey ≠ "")
    (hor : ∀ n, 1 ≤ n → n ≤ 3 → oracle n = GenResult.ok t)
    (hparse : jsonParse (stripFence t) = Except.error e)
    (h500t : containsSub (wrapMsg "text" t e) "500" = false)
    (hakt : containsSub (wrapMsg "text" t e) "API key not valid" = false)
    (h500i : containsSub (wrapMsg "image" t e) "500" = false)
    (haki : containsSub (wrapMsg "image" t e) "API key not valid" = false) :
    extractInfoFromText apiKey oracle =
      { result := Except.error (wrapMsg "text" t e), attempts := 3, delays := [] } ∧
    extractInfoFromImage apiKey oracle =
      { result := Except.error (wrapMsg "image" t e), attempts := 3, delays := [] } := by
  have o1 := hor 1 (by omega) (by omega)
  have o2 := hor 2 (by omega) (by omega)
  have o3 := hor 3 (by omega) (by omega)
  constructor
  · simp only [extractInfoFromText, if_neg hkey, MAX_RETRIES, extractLoop, tryAttempt,
      o1, o2, o3, hparse, h500t, hakt, Bool.false_and, Bool.and_self, if_neg,
      Bool.false_eq_true, not_false_eq_true, Option.getD_some]
  · simp only [extractInfoFromImage, if_neg hkey, MAX_RETRIES, extractLoop, tryAttempt,
      o1, o2, o3, hparse, h500i, haki, Bool.false_and, Bool.and_self, if_neg,
      Bool.false_eq_true, not_false_eq_true, Option.getD_some]

/-- Witness for the amended C4 at the concrete non-JSON response. -/
theorem parse_failures_consume_retries_witness :
    extractInfoFromText "key" parseFailOracle =
      { result := Except.error (wrapMsg "text" "not json" "Unexpected token in JSON")
        attempts := 3, delays := [] } ∧
    extractInfoFromImage "key" parseFailOracle =
      { result := Except.error (wrapMsg "image" "not json" "Unexpected token in JSON")
        attempts := 3, delays := [] } :=
  parse_failures_consume_retries "key" parseFailOracle "not json" "Unexpected token in JSON"
    (by decide) (fun n _ _ => rfl) rfl (by decide) (by decide) (by decide) (by decide)

/-- C8: with a transient server-side failure (an error whose message carries
the status-500 marker but not the invalid-credential marker) on every
attempt, each entry point makes exactly 3 model requests, awaiting delays of
RETRY_DELAY_MS scaled by the attempt number (1000 ms then 2000 ms) between
attempts, and then surfaces the last error. -/
theorem retry_bound_three_attempts (apiKey : String) (oracle : Nat → GenResult)
    (m : Nat → String)
    (hkey : apiKey ≠ "")
    (hor : ∀ n, 1 ≤ n → n ≤ 3 → oracle n = GenResult.thrown (m n))
    (h500 : ∀ n, 1 ≤ n → n ≤ 3 → containsSub (m n) "500" = true)
    (hak : ∀ n, 1 ≤ n → n ≤ 3 → containsSub (m n) "API key not valid" = false) :
    extractInfoFromText apiKey oracle =
      { result := Except.error (m 3), attempts := 3, delays := [1000, 2000] } ∧
    extractInfoFromImage apiKey oracle =
      { result := Except.error (m 3), attempts := 3, delays := [1000, 2000] } := by
  have o1 := hor 1 (by omega) (by omega)
  have o2 := hor 2 (by omega) (by omega)
  have o3 := hor 3 (by omega) (by omega)
  have f1 := h500 1 (by omega) (by omega)
  have f2 := h500 2 (by omega) (by omega)
  have f3 := h500 3 (by omega) (by omega)
  have a1 := hak 1 (by omega) (by omega)
  have a2 := hak 2 (by omega) (by omega)
  have a3 := hak 3 (by omega) (by omega)
  constructor
  · simp only [extractInfoFromText, if_neg hkey, MAX_RETRIES, RETRY_DELAY_MS, extractLoop,
      tryAttempt, o1, o2, o3, f1, f2, f3, a1, a2, a3, Bool.true_and, Bool.false_eq_true,
      not_false_eq_true, if_neg, Option.getD_some]
    norm_num
  · simp only [extractInfoFromImage, if_neg hkey, MAX_RETRIES, RETRY_DELAY_MS, extractLoop,
      tryAttempt, o1, o2, o3, f1, f2, f3, a1, a2, a3, Bool.true_and, Bool.false_eq_true,
      not_false_eq_true, if_neg, Option.getD_some]
    norm_num

/-- A model-call oracle whose every attempt throws a 500 status error. -/
def transientErrOracle : Nat → GenResult :=
  fun _ => GenResult.thrown "got status: 500 Internal Server Error."

/-- The targeted record update preserves the file's id. -/
theorem applyOutcome_id (f : ProcessedFileData) (r : Except String ExtractedGeminiInfo) :
    (applyOutcome f r).id = f.id := by
  cases r <;> rfl

/-- One batch step is the id-targeted pointwise update of the whole state. -/
theorem stepProcess_eq (store : List String)
    (oracle : String → Except String ExtractedGeminiInfo)
    (st : List ProcessedFileData) (f : ProcessedFileData) :
    stepProcess store oracle st f =
      st.map (fun x =>
        if x.id == f.id then applyOutcome x (processFileResult store oracle f.id) else x) := by
  unfold stepProcess
  cases hr : processFileResult store oracle f.id with
  | ok d =>
    dsimp only
    rw [List.map_map]
    apply List.map_congr_left
    intro x _
    by_cases hx : (x.id == f.id) = true
    · simp [Function.comp, hx, applyOutcome]
    · have hx' : (x.id == f.id) = false := by simpa using hx
      simp [Function.comp, hx']
  | error m =>
    dsimp only
    rw [List.map_map]
    apply List.map_congr_left
    intro x _
    by_cases hx : (x.id == f.id) = true
    · simp [Function.comp, hx, applyOutcome]
    · have hx' : (x.id == f.id) = false := by simpa using hx
      simp [Function.comp, hx']

/-- Folding the batch step over a work list with duplicate-free ids updates
every file whose id occurs in the work list by its own outcome and leaves
every other file unchanged. -/
theorem foldl_stepProcess (store : List String)
    (oracle : String → Except String ExtractedGeminiInfo) :
    ∀ (w : List ProcessedFileData) (st : List ProcessedFileData),
      (w.map (fun f => f.id)).Nodup →
      w.foldl (stepProcess store oracle) st =
        st.map (fun x =>
          if w.any (fun f => f.id == x.id) then
            applyOutcome x (processFileResult store oracle x.id)
          else x)
  | [], st, _ => by simp
  | f :: w', st, hnd => by
    have h2 : (∀ x ∈ w', ¬x.id = f.id) ∧ (List.map (fun g => g.id) w').Nodup := by
      simpa using hnd
    have hanyf : (w'.any fun g => g.id == f.id) = false := by
      rw [List.any_eq_false]
      intro g hg
      simpa using h2.1 g hg
    rw [List.foldl_cons, stepProcess_eq, foldl_stepProcess store oracle w' _ h2.2,
      List.map_map]
    apply List.map_congr_left
    intro x _
    by_cases hx : (x.id == f.id) = true
    · have hxid : x.id = f.id := by simpa using hx
      have houter : (w'.any fun g =>
          g.id == (applyOutcome x (processFileResult store oracle f.id)).id) = false := by
        rw [applyOutcome_id, hxid]
        exact hanyf
      simp [Function.comp, hx, houter, hxid]
    · have hx' : (x.id == f.id) = false := by simpa using hx
      have hfx : (f.id == x.id) = false := by
        rw [beq_eq_false_iff_ne] at hx' ⊢
        exact fun h => hx' h.symm
      simp [Function.comp, hx', hfx]

/-- C6: with a credential set and duplicate-free file ids, running the batch
rewrites exactly the files that were queued at start, each by its own
processing outcome — a failure sets only that file's status to error with the
error's message, and every other queued file is still attempted and
completes whenever its own outcome is a success; files not queued are
untouched. -/
theorem batch_failure_isolation (apiKey : String) (files : List ProcessedFileData)
    (store : List String) (oracle : String → Except String ExtractedGeminiInfo)
    (hkey : apiKey ≠ "") (hnd : (files.map (fun f => f.id)).Nodup) :
    handleStartProcessing apiKey files store oracle =
      files.map (fun f =>
        if f.status == FileStatus.queued then
          applyOutcome f (processFileResult store oracle f.id)
        else f) := by
  unfold handleStartProcessing
  rw [if_neg hkey]
  have hsub : ((files.filter (fun f => f.status == FileStatus.queued)).map (fun f => f.id)).Sublist
      (files.map (fun f => f.id)) :=
    (List.filter_sublist files).map (fun f => f.id)
  rw [foldl_stepProcess store oracle _ _ (hnd.sublist hsub)]
  apply List.map_congr_left
  intro x hx
  by_cases hq : (x.status == FileStatus.queued) = true
  · have hmem : x ∈ files.filter (fun f => f.status == FileStatus.queued) :=
      List.mem_filter.mpr ⟨hx, hq⟩
    have hany : (files.filter (fun f => f.status == FileStatus.queued)).any
        (fun f => f.id == x.id) = true :=
      List.any_eq_true.mpr ⟨x, hmem, by simp⟩
    simp [hany, hq]
  · have hany : (files.filter (fun f => f.status == FileStatus.queued)).any
        (fun f => f.id == x.id) = false := by
      rw [List.any_eq_false]
      intro g hg
      rcases List.mem_filter.mp hg with ⟨hgmem, hgq⟩
      simp only [beq_iff_eq]
      intro hgid
      have hgx := List.inj_on_of_nodup_map hnd hgmem hx hgid
      subst hgx
      exact absurd hgq (by simpa using hq)
    have hq' : (x.status == FileStatus.queued) = false := by simpa using hq
    simp [hany, hq']

/-- The demonstration batch of three queued files. -/
def demoFiles : List ProcessedFileData :=
  [ { id := "A", pdfFileName := "a.pdf", status := FileStatus.queued, errorMessage := none
      reportNumber := none, certificationDate := none, supplierRegistrationNumber := none
      extractedInstances := [] }
  , { id := "B", pdfFileName := "b.pdf", status := FileStatus.queued, errorMessage := none
      reportNumber := none, certificationDate := none, supplierRegistrationNumber := none
      extractedInstances := [] }
  , { id := "C", pdfFileName := "c.pdf", status := FileStatus.queued, errorMessage := none
      reportNumber := none, certificationDate := none, supplierRegistrationNumber := none
      extractedInstances := [] } ]

/-- Extraction output for the demonstration batch. -/
def demoInfo : ExtractedGeminiInfo :=
  { reportNumber := some "R1", certificationDate := some "2024-01-01"
    supplierRegistrationNumber := some "S1"
    gameInstances := [ { gameName := some "Game", gameCode := some "gx_mcg", files := [] } ] }

/-- A per-file outcome oracle where the second file's extraction raises the
invalid-credential error and the others succeed. -/
def demoOracle : String → Except String ExtractedGeminiInfo :=
  fun id =>
    if id = "B" then
      Except.error "The provided API Key is invalid or has been rejected by Google."
    else Except.ok demoInfo

/-- Witness for C6: in a batch of three queued files where the second file's
extraction raises the invalid-credential error, the first and third files
still complete and only the second is marked error. -/
theorem batch_failure_isolation_witness :
    handleStartProcessing "key" demoFiles ["A", "B", "C"] demoOracle =
      [ { id := "A", pdfFileName := "a.pdf", status := FileStatus.completed, errorMessage := none
          reportNumber := some "R1", certificationDate := some "2024-01-01"
          supplierRegistrationNumber := some "S1"
          extractedInstances := [ { gameName := some "Game", gameCode := some "gx_mcg", files := [] } ] }
      , { id := "B", pdfFileName := "b.pdf", status := FileStatus.error
          errorMessage := some "The provided API Key is invalid or has been rejected by Google."
          reportNumber := none, certificationDate := none, supplierRegistrationNumber := none
          extractedInstances := [] }
      , { id := "C", pdfFileName := "c.pdf", status := FileStatus.completed, errorMessage := none
          reportNumber := some "R1", certificationDate := some "2024-01-01"
          supplierRegistrationNumber := some "S1"
          extractedInstances := [ { gameName := some "Game", gameCode := some "gx_mcg", files := [] } ] } ] :=
  (batch_failure_isolation "key" demoFiles ["A", "B", "C"] demoOracle
    (by decide) (by decide)).trans (by decide)

/-- Witness for C8 at a concrete transient-error oracle. -/
theorem retry_bound_three_attempts_witness :
    extractInfoFromText "key" transientErrOracle =
      { result := Except.error "got status: 500 Internal Server Error."
        attempts := 3, delays := [1000, 2000] } ∧
    extractInfoFromImage "key" transientErrOracle =
      { result := Except.error "got status: 500 Internal Server Error."
        attempts := 3, delays := [1000, 2000] } :=
  retry_bound_three_attempts "key" transientErrOracle
    (fun _ => "got status: 500 Internal Server Error.")
    (by decide) (fun n _ _ => rfl)
    (fun n _ _ =>
      (by decide : containsSub "got status: 500 Internal Server Error." "500" = true))
    (fun n _ _ =>
      (by decide :
        containsSub "got status: 500 Internal Server Error." "API key not valid" = false))

/-- mapSet grows the map by one entry exactly when the key is new. -/
theorem mapSet_length {α : Type} (m : List (String × α)) (k : String) (v : α) :
    (mapSet m k v).length = if mapHas m k then m.length else m.length + 1 := by
  unfold mapSet
  by_cases h : mapHas m k = true
  · simp [h]
  · simp [h]

/-- After mapSet the key is present. -/
theorem mapHas_mapSet_self {α : Type} (m : List (String × α)) (k : String) (v : α) :
    mapHas (mapSet m k v) k = true := by
  unfold mapSet
  by_cases h : mapHas m k = true
  · rw [if_pos h]
    unfold mapHas at h ⊢
    rcases List.any_eq_true.mp h with ⟨p, hp, hpk⟩
    exact List.any_eq_true.mpr ⟨(k, v), by
      refine List.mem_map.mpr ⟨p, hp, ?_⟩
      simp [hpk], by simp⟩
  · rw [if_neg h]
    unfold mapHas
    exact List.any_eq_true.mpr ⟨(k, v), by simp, by simp⟩

/-- mapSet never removes a present key. -/
theorem mapHas_mapSet_of_mapHas {α : Type} (m : List (String × α)) (k k' : String) (v : α)
    (h : mapHas m k' = true) : mapHas (mapSet m k v) k' = true := by
  unfold mapSet
  by_cases hk : mapHas m k = true
  · rw [if_pos hk]
    unfold mapHas at h ⊢
    rcases List.any_eq_true.mp h with ⟨p, hp, hpk⟩
    by_cases hpkk : (p.1 == k) = true
    · refine List.any_eq_true.mpr ⟨(k, v), List.mem_map.mpr ⟨p, hp, by simp [hpkk]⟩, ?_⟩
      have : p.1 = k := by simpa using hpkk
      have : k = k' := by
        rw [← this]
        simpa using hpk
      simp [this]
    · refine List.any_eq_true.mpr ⟨p, List.mem_map.mpr ⟨p, hp, by simp [hpkk]⟩, hpk⟩
  · rw [if_neg hk]
    unfold mapHas at h ⊢
    rcases List.any_eq_true.mp h with ⟨p, hp, hpk⟩
    exact List.any_eq_true.mpr ⟨p, List.mem_append_left _ hp, hpk⟩

/-- The accepted keys of a list of data lines. -/
def acceptedKeysOf (lines : List String) : List String :=
  lines.filterMap (fun line => (lineEntry line).map (fun p => p.1))

/-- The loader's fold counts every accepted line, while the map gains at most
one entry per accepted line, strictly fewer as soon as an accepted key was
already present or the accepted keys repeat. -/
theorem parseFold_spec :
    ∀ (lines : List String) (m : List (String × ProviderInfo)) (c : Nat),
      (lines.foldl
        (fun acc line =>
          match lineEntry line with
          | some (k, v) => (mapSet acc.1 k v, acc.2 + 1)
          | none => acc)
        (m, c)).2 = c + (acceptedKeysOf lines).length ∧
      (lines.foldl
        (fun acc line =>
          match lineEntry line with
          | some (k, v) => (mapSet acc.1 k v, acc.2 + 1)
          | none => acc)
        (m, c)).1.length ≤ m.length + (acceptedKeysOf lines).length ∧
      (((∃ k ∈ acceptedKeysOf lines, mapHas m k = true) ∨ ¬(acceptedKeysOf lines).Nodup) →
        (lines.foldl
          (fun acc line =>
            match lineEntry line with
            | some (k, v) => (mapSet acc.1 k v, acc.2 + 1)
            | none => acc)
          (m, c)).1.length < m.length + (acceptedKeysOf lines).length)
  | [], m, c => by
    refine ⟨by simp [acceptedKeysOf], by simp [acceptedKeysOf], ?_⟩
    intro h
    rcases h with ⟨k, hk, _⟩ | hnd
    · simp [acceptedKeysOf] at hk
    · simp [acceptedKeysOf] at hnd
  | line :: rest, m, c => by
    cases hle : lineEntry line with
    | none =>
      have hkeys : acceptedKeysOf (line :: rest) = acceptedKeysOf rest := by
        simp [acceptedKeysOf, hle]
      rw [List.foldl_cons]
      simp only [hle, hkeys]
      exact parseFold_spec rest m c
    | some kv =>
      rcases kv with ⟨k, v⟩
      have hkeys : acceptedKeysOf (line :: rest) = k :: acceptedKeysOf rest := by
        simp [acceptedKeysOf, hle]
      have ih := parseFold_spec rest (mapSet m k v) (c + 1)
      have hlen := mapSet_length m k v
      rw [List.foldl_cons]
      simp only [hle, hkeys]
      refine ⟨?_, ?_, ?_⟩
      · rw [ih.1]
        simp
        omega
      · have hb : (mapSet m k v).length ≤ m.length + 1 := by
          rw [hlen]
          by_cases h : mapHas m k = true
          · simp [h]
          · simp [h]
        have := ih.2.1
        simp only [List.length_cons]
        omega
      · intro hdup
        simp only [List.length_cons]
        by_cases hin : mapHas m k = true
        · have hsz : (mapSet m k v).length = m.length := by
            rw [hlen, if_pos hin]
          have := ih.2.1
          omega
        · have hcase : (∃ k0 ∈ acceptedKeysOf rest, mapHas (mapSet m k v) k0 = true) ∨
              ¬(acceptedKeysOf rest).Nodup := by
            rcases hdup with ⟨k0, hk0mem, hk0has⟩ | hnodup
            · rcases List.mem_cons.mp hk0mem with h0 | h0
              · subst h0
                exact absurd hk0has (by simpa using hin)
              · exact Or.inl ⟨k0, h0, mapHas_mapSet_of_mapHas m k k0 v hk0has⟩
            · by_cases hkmem : k ∈ acceptedKeysOf rest
              · exact Or.inl ⟨k, hkmem, mapHas_mapSet_self m k v⟩
              · exact Or.inr (fun hnd2 => hnodup (List.nodup_cons.mpr ⟨hkmem, hnd2⟩))
          have hstrict := ih.2.2 hcase
          have hb : (mapSet m k v).length ≤ m.length + 1 := by
            rw [hlen, if_neg hin]
          omega

/-- C10: the loader's returned count tallies every accepted line with
multiplicity, so it is at least the number of distinct keys in the returned
table, and strictly greater whenever two accepted lines normalize to the
same key. -/
theorem provider_count_vs_distinct_keys (text : String) :
    (parseProviderData text).1.length ≤ (parseProviderData text).2 ∧
    (¬(acceptedKeys text).Nodup →
      (parseProviderData text).1.length < (parseProviderData text).2) := by
  have h := parseFold_spec (dataLines text) [] 0
  have hkeys : acceptedKeysOf (dataLines text) = acceptedKeys text := rfl
  unfold parseProviderData
  rw [hkeys] at h
  constructor
  · rw [h.1]
    simpa using h.2.1
  · intro hdup
    rw [h.1]
    simpa using h.2.2 (Or.inr hdup)

/-- Witness for C10 at a pasted table whose two accepted lines share one
normalized key: the count is 2 while the table has 1 entry. -/
theorem provider_count_vs_distinct_keys_witness :
    (parseProviderData "Game A\tProv\t\t\t\tC1\nGame A\tProv\t\t\t\tC2").1.length ≤
      (parseProviderData "Game A\tProv\t\t\t\tC1\nGame A\tProv\t\t\t\tC2").2 ∧
    (parseProviderData "Game A\tProv\t\t\t\tC1\nGame A\tProv\t\t\t\tC2").1.length <
      (parseProviderData "Game A\tProv\t\t\t\tC1\nGame A\tProv\t\t\t\tC2").2 :=
  ⟨(provider_count_vs_distinct_keys "Game A\tProv\t\t\t\tC1\nGame A\tProv\t\t\t\tC2").1,
   (provider_count_vs_distinct_keys "Game A\tProv\t\t\t\tC1\nGame A\tProv\t\t\t\tC2").2
     (by
       have hkeys : acceptedKeys "Game A\tProv\t\t\t\tC1\nGame A\tProv\t\t\t\tC2" =
           ["game a", "game a"] := by decide
       rw [hkeys]
       intro hnd
       rcases List.nodup_cons.mp hnd with ⟨hmem, _⟩
       exact hmem (List.mem_singleton.mpr rfl))⟩

/-- Present keys are exactly those with a lookup result. -/
theorem mapHas_eq_isSome {α : Type} (m : List (String × α)) (k : String) :
    mapHas m k = (mapGet m k).isSome := by
  unfold mapHas mapGet
  induction m with
  | nil => rfl
  | cons p rest ih =>
    by_cases hp : (p.1 == k) = true
    · simp [List.find?_cons, hp]
    · have hp' : (p.1 == k) = false := by simpa using hp
      simp [List.find?_cons, hp', ih]

/-- The in-place replacement of mapSet preserves every entry's key, so the
key-search predicate is unchanged by it. -/
theorem find?_mapSet_replace {α : Type} (m : List (String × α)) (k k' : String) (v : α) :
    List.find? (fun p => p.1 == k')
        (m.map (fun p => if p.1 == k then (k, v) else p)) =
      (List.find? (fun p => p.1 == k') m).map (fun p => if p.1 == k then (k, v) else p) := by
  rw [List.find?_map]
  have hpred : ((fun p : String × α => p.1 == k') ∘
      (fun p : String × α => if p.1 == k then (k, v) else p)) = fun p => p.1 == k' := by
    funext p
    by_cases hp : (p.1 == k) = true
    · have hk : p.1 = k := by simpa using hp
      simp [Function.comp, hp, hk]
    · have hp' : (p.1 == k) = false := by simpa using hp
      simp [Function.comp, hp']
  rw [hpred]

/-- Looking up the key just set yields the value just set. -/
theorem mapGet_mapSet_self {α : Type} (m : List (String × α)) (k : String) (v : α) :
    mapGet (mapSet m k v) k = some v := by
  unfold mapSet
  by_cases h : mapHas m k = true
  · rw [if_pos h]
    unfold mapGet
    rw [find?_mapSet_replace]
    unfold mapHas at h
    rcases List.any_eq_true.mp h with ⟨p, hp, hpk⟩
    have hsome : (List.find? (fun p => p.1 == k) m).isSome := by
      rw [List.find?_isSome]
      exact ⟨p, hp, hpk⟩
    rcases Option.isSome_iff_exists.mp hsome with ⟨q, hq⟩
    have hqk := List.find?_some hq
    have hq1 : q.1 = k := by simpa using hqk
    rw [hq]
    simp [hq1]
  · rw [if_neg h]
    unfold mapGet
    have hnone : List.find? (fun p => p.1 == k) m = none := by
      rw [List.find?_eq_none]
      intro p hp hpk
      exact h (List.any_eq_true.mpr ⟨p, hp, by simpa using hpk⟩)
    rw [List.find?_append, hnone]
    simp

/-- Setting one key leaves every other key's lookup unchanged. -/
theorem mapGet_mapSet_other {α : Type} (m : List (String × α)) (k k' : String) (v : α)
    (hne : k ≠ k') : mapGet (mapSet m k v) k' = mapGet m k' := by
  unfold mapSet
  by_cases h : mapHas m k = true
  · rw [if_pos h]
    unfold mapGet
    rw [find?_mapSet_replace]
    cases hf : List.find? (fun p => p.1 == k') m with
    | none => rfl
    | some q =>
      have hqk := List.find?_some hf
      have hq1 : q.1 = k' := by simpa using hqk
      have hqn : q.1 ≠ k := by rw [hq1]; exact fun he => hne he.symm
      simp [hqn]
  · rw [if_neg h]
    unfold mapGet
    rw [List.find?_append]
    cases hf : List.find? (fun p => p.1 == k') m with
    | some q => rfl
    | none =>
      have hkk : ((k : String) == k') = false := by simpa using hne
      simp [List.find?_cons, hkk]

/-- A key outside the key list has no lookup result. -/
theorem mapGet_eq_none_of_not_mem {α : Type} (m : List (String × α)) (k : String)
    (h : k ∉ m.map Prod.fst) : mapGet m k = none := by
  unfold mapGet
  have hnone : List.find? (fun p => p.1 == k) m = none := by
    rw [List.find?_eq_none]
    intro p hp hpk
    exact h (by
      have : p.1 = k := by simpa using hpk
      rw [← this]
      exact List.mem_map_of_mem Prod.fst hp)
  rw [hnone]
  rfl

/-- The Provider Table's authoritative contribution for a key: its truthy
imsGameCode, when the key is present and carries one. -/
def tableTruthyCode (pmap : List (String × ProviderInfo)) (k : String) : Option String :=
  match mapGet pmap k with
  | some info =>
    match info.imsGameCode with
    | some c => if c != "" then some c else none
    | none => none
  | none => none

/-- The truthy extracted codes carried by completed files' instances whose
normalized name is the given key, in file-then-instance order. -/
def instCodesFor (insts : List GameInstanceData) (k : String) : List String :=
  insts.filterMap (fun inst =>
    if normalizeGameName inst.gameName == k && truthy inst.gameCode then inst.gameCode
    else none)

/-- The extraction-derived candidate codes for a key over the completed
files, in processing order. -/
def extractedCodesFor (files : List ProcessedFileData) (k : String) : List String :=
  instCodesFor ((files.filter (fun f => f.status == FileStatus.completed)).flatMap
    (fun f => f.extractedInstances)) k

/-- The first pass resolves a key to the Provider Table's truthy code when
there is one, and otherwise to whatever the accumulator held. -/
theorem authPass1_fold (pmap : List (String × ProviderInfo)) :
    ∀ (acc : List (String × String)) (k : String),
      (pmap.map Prod.fst).Nodup →
      mapGet (pmap.foldl
        (fun acc p =>
          match p.2.imsGameCode with
          | some c => if c != "" then mapSet acc p.1 c else acc
          | none => acc)
        acc) k =
        (match tableTruthyCode pmap k with
         | some c => some c
         | none => mapGet acc k) := by
  induction pmap with
  | nil => intro acc k _; simp [tableTruthyCode, mapGet]
  | cons p rest ih =>
    intro acc k hnd
    have hnd' : (rest.map Prod.fst).Nodup := (List.nodup_cons.mp hnd).2
    have hnotin : p.1 ∉ rest.map Prod.fst := (List.nodup_cons.mp hnd).1
    rw [List.foldl_cons, ih _ k hnd']
    by_cases hk : p.1 = k
    · subst hk
      have htr : tableTruthyCode rest p.1 = none := by
        unfold tableTruthyCode
        rw [mapGet_eq_none_of_not_mem rest p.1 hnotin]
      have hhead : tableTruthyCode ((p.1, p.2) :: rest) p.1 =
          (match p.2.imsGameCode with
           | some c => if c != "" then some c else none
           | none => none) := by
        unfold tableTruthyCode mapGet
        simp [List.find?_cons]
      cases hc : p.2.imsGameCode with
      | none => simp [htr, hhead, hc]
      | some c =>
        by_cases hce : (c != "") = true
        · simp [htr, hhead, hc, hce, mapGet_mapSet_self]
        · have hce' : (c != "") = false := by simpa using hce
          simp [htr, hhead, hc, hce']
    · have hp : (p.1 == k) = false := by simpa using hk
      have htr : tableTruthyCode ((p.1, p.2) :: rest) k = tableTruthyCode rest k := by
        unfold tableTruthyCode mapGet
        simp [List.find?_cons, hp]
      rw [htr]
      cases htc : tableTruthyCode rest k with
      | some c => rfl
      | none =>
        cases hc : p.2.imsGameCode with
        | none => rfl
        | some c =>
          by_cases hce : (c != "") = true
          · simp only [hce, if_pos]
            exact mapGet_mapSet_other acc p.1 k c hk
          · have hce' : (c != "") = false := by simpa using hce
            simp [hce']

/-- The gap-filling pass resolves a nonempty key to what the map already held
when present, and otherwise to the first matching truthy extracted code. -/
theorem authPass2_fold (k : String) (hk : k ≠ "") :
    ∀ (insts : List GameInstanceData) (m : List (String × String)),
      mapGet (insts.foldl authInstStep m) k =
        (match mapGet m k with
         | some c => some c
         | none => (instCodesFor insts k).head?) := by
  intro insts
  induction insts with
  | nil => intro m; cases h : mapGet m k <;> simp [instCodesFor, h]
  | cons inst rest ih =>
    intro m
    rw [List.foldl_cons, ih]
    unfold authInstStep
    by_cases hmatch : (normalizeGameName inst.gameName == k && truthy inst.gameCode) = true
    · rw [Bool.and_eq_true] at hmatch
      have hkey : normalizeGameName inst.gameName = k := by simpa using hmatch.1
      have htru : truthy inst.gameCode = true := hmatch.2
      obtain ⟨c, hg⟩ : ∃ c, inst.gameCode = some c := by
        cases hgc : inst.gameCode with
        | none => rw [hgc] at htru; simp [truthy] at htru
        | some c => exact ⟨c, rfl⟩
      have hcondB : (normalizeGameName inst.gameName == k && truthy inst.gameCode) = true := by
        simp [hkey, htru]
      have hlist : instCodesFor (inst :: rest) k = c :: instCodesFor rest k := by
        unfold instCodesFor
        rw [List.filterMap_cons, if_pos hcondB, hg]
      rw [hlist]
      cases hm : mapGet m k with
      | some c0 =>
        have hhas : mapHas m k = true := by
          rw [mapHas_eq_isSome, hm]
          rfl
        have hcond : (normalizeGameName inst.gameName != "" &&
            !mapHas m (normalizeGameName inst.gameName) && truthy inst.gameCode) = false := by
          rw [hkey, hhas]
          simp
        rw [if_neg (by simp [hcond])]
        simp [hm]
      | none =>
        have hhas : mapHas m k = false := by
          rw [mapHas_eq_isSome, hm]
          rfl
        have hcond : (normalizeGameName inst.gameName != "" &&
            !mapHas m (normalizeGameName inst.gameName) && truthy inst.gameCode) = true := by
          rw [hkey, hhas]
          simp [htru, hk]
        rw [if_pos hcond, hkey, mapGet_mapSet_self]
        simp [hg]
    · have hmatch' : (normalizeGameName inst.gameName == k && truthy inst.gameCode) = false := by
        simpa using hmatch
      have hlist : instCodesFor (inst :: rest) k = instCodesFor rest k := by
        unfold instCodesFor
        rw [List.filterMap_cons, if_neg (by simp [hmatch'])]
      rw [hlist]
      by_cases hstep : (normalizeGameName inst.gameName != "" &&
          !mapHas m (normalizeGameName inst.gameName) && truthy inst.gameCode) = true
      · rw [if_pos hstep]
        have hkne : normalizeGameName inst.gameName ≠ k := by
          intro he
          rw [Bool.and_eq_true, Bool.and_eq_true] at hstep
          have htru : truthy inst.gameCode = true := hstep.2
          rw [Bool.and_eq_true] at hmatch
          exact hmatch ⟨by simpa using he, htru⟩
        rw [mapGet_mapSet_other _ _ _ _ hkne]
      · rw [if_neg hstep]

/-- The nested completed-file/instance fold is the fold over the flattened
instance sequence. -/
theorem buildAuth_flatten (pmap : List (String × ProviderInfo))
    (files : List ProcessedFileData) :
    buildAuthoritativeImsCodeMap pmap files =
      List.foldl authInstStep (authPass1 pmap)
        ((files.filter (fun f => f.status == FileStatus.completed)).flatMap
          (fun f => f.extractedInstances)) := by
  unfold buildAuthoritativeImsCodeMap
  generalize authPass1 pmap = m0
  induction files generalizing m0 with
  | nil => rfl
  | cons f rest ih =>
    by_cases hf : (f.status == FileStatus.completed) = true
    · rw [List.foldl_cons, if_pos hf, List.filter_cons, if_pos hf, List.flatMap_cons,
        List.foldl_append]
      exact ih _
    · have hf' : ¬((f.status == FileStatus.completed) = true) := hf
      rw [List.foldl_cons, if_neg hf', List.filter_cons, if_neg hf']
      exact ih _

/-- C1 (amended): for a Provider Table with duplicate-free keys and any
nonempty normalized key, the authoritative map resolves the key to the
table's truthy (non-null, nonempty) imsGameCode when the table carries one —
regardless of extracted codes — and otherwise to the first truthy extracted
gameCode for that key over completed files in file-then-instance order,
later codes being ignored. -/
theorem authoritative_code_resolution (pmap : List (String × ProviderInfo))
    (files : List ProcessedFileData) (k : String)
    (hnd : (pmap.map Prod.fst).Nodup) (hk : k ≠ "") :
    mapGet (buildAuthoritativeImsCodeMap pmap files) k =
      (match tableTruthyCode pmap k with
       | some c => some c
       | none => (extractedCodesFor files k).head?) := by
  rw [buildAuth_flatten, authPass2_fold k hk]
  have h1 : mapGet (authPass1 pmap) k =
      (match tableTruthyCode pmap k with
       | some c => some c
       | none => mapGet ([] : List (String × String)) k) := by
    unfold authPass1
    exact authPass1_fold pmap [] k hnd
  rw [h1]
  cases htc : tableTruthyCode pmap k with
  | some c => rfl
  | none => simp [mapGet, extractedCodesFor]

/-- The claim's reading of gap-filling: the first non-null (possibly empty)
extracted gameCode for the key, over completed files in processing order. -/
def firstNonNullCode (files : List ProcessedFileData) (k : String) : Option String :=
  (((files.filter (fun f => f.status == FileStatus.completed)).flatMap
      (fun f => f.extractedInstances)).filterMap
    (fun inst =>
      if normalizeGameName inst.gameName == k && inst.gameCode.isSome then inst.gameCode
      else none)).head?

/-- A completed file whose first instance carries the empty-string gameCode
(non-null but falsy) and whose second carries a nonempty code. -/
def cexFiles : List ProcessedFileData :=
  [ { id := "f1", pdfFileName := "f1.pdf", status := FileStatus.completed
      errorMessage := none, reportNumber := none, certificationDate := none
      supplierRegistrationNumber := none
      extractedInstances :=
        [ { gameName := some "g", gameCode := some "", files := [] }
        , { gameName := some "g", gameCode := some "C", files := [] } ] } ]

/-- C1 counterexample: for a key absent from the Provider Table whose first
non-null extracted code is the empty string, the claim says the map resolves
the key to that first code, but the code's truthiness guard skips empty
strings and the map resolves the key to the later nonempty code. -/
theorem authoritative_map_empty_code_counterexample :
    firstNonNullCode cexFiles "g" = some "" ∧
    mapGet (buildAuthoritativeImsCodeMap [] cexFiles) "g" = some "C" := by
  refine ⟨by decide, by decide⟩

/-- A small Provider Table for the C1 witness. -/
def cexTable : List (String × ProviderInfo) :=
  [ ("k", { provider := "Acme", portalLiveDate := none, imsGameCode := some "A" }) ]

/-- A completed file carrying an extracted code for the table key and for a
fresh key, for the C1 witness. -/
def cexFiles2 : List ProcessedFileData :=
  [ { id := "f2", pdfFileName := "f2.pdf", status := FileStatus.completed
      errorMessage := none, reportNumber := none, certificationDate := none
      supplierRegistrationNumber := none
      extractedInstances :=
        [ { gameName := some "k", gameCode := some "B", files := [] }
        , { gameName := some "g", gameCode := some "B2", files := [] }
        , { gameName := some "g", gameCode := some "C2", files := [] } ] } ]

/-- Witness for the amended C1: the Provider Table's code wins for its key
and the first truthy extracted code fills the gap for the other key. -/
theorem authoritative_code_resolution_witness :
    (mapGet (buildAuthoritativeImsCodeMap cexTable cexFiles2) "k" =
      (match tableTruthyCode cexTable "k" with
       | some c => some c
       | none => (extractedCodesFor cexFiles2 "k").head?)) ∧
    (mapGet (buildAuthoritativeImsCodeMap cexTable cexFiles2) "g" =
      (match tableTruthyCode cexTable "g" with
       | some c => some c
       | none => (extractedCodesFor cexFiles2 "g").head?)) ∧
    mapGet (buildAuthoritativeImsCodeMap cexTable cexFiles2) "k" = some "A" ∧
    mapGet (buildAuthoritativeImsCodeMap cexTable cexFiles2) "g" = some "B2" :=
  ⟨authoritative_code_resolution cexTable cexFiles2 "k" (by decide) (by decide),
   authoritative_code_resolution cexTable cexFiles2 "g" (by decide) (by decide),
   by decide, by decide⟩

/-- Unfolding equation of newFolders on a cons. -/
theorem newFolders_cons (acc : List String) (x : String) (xs : List String) :
    newFolders acc (x :: xs) =
      if acc.contains x then newFolders acc xs else x :: newFolders (acc ++ [x]) xs := rfl

/-- The folders newly collected are duplicate-free and disjoint from the
folders already seen. -/
theorem newFolders_nodup : ∀ (l : List String) (acc : List String),
    (newFolders acc l).Nodup ∧ ∀ x ∈ newFolders acc l, x ∉ acc
  | [], acc => ⟨List.nodup_nil, by simp [newFolders]⟩
  | x :: xs, acc => by
    rw [newFolders_cons]
    by_cases hx : acc.contains x = true
    · rw [if_pos hx]
      exact newFolders_nodup xs acc
    · rw [if_neg hx]
      have ih := newFolders_nodup xs (acc ++ [x])
      have hxmem : x ∉ acc := by
        intro hm
        exact hx (by simpa using hm)
      refine ⟨List.nodup_cons.mpr ⟨?_, ih.1⟩, ?_⟩
      · intro hxin
        have := ih.2 x hxin
        exact this (by simp)
      · intro y hy
        rcases List.mem_cons.mp hy with rfl | hy'
        · exact hxmem
        · intro hyacc
          exact ih.2 y hy' (List.mem_append_left _ hyacc)

/-- The per-file instance fold appends one placement per newly seen folder,
in first-occurrence order. -/
theorem exportInstFold_spec (pmap : List (String × ProviderInfo)) (nm : String) :
    ∀ (insts : List GameInstanceData) (pl : List (String × String)) (folders : List String),
      insts.foldl (exportInstStep pmap nm) (pl, folders) =
        (pl ++ (newFolders folders (insts.map (folderOfInstance pmap))).map (fun fd => (fd, nm)),
         folders ++ newFolders folders (insts.map (folderOfInstance pmap)))
  | [], pl, folders => by simp [newFolders]
  | inst :: rest, pl, folders => by
    rw [List.foldl_cons, List.map_cons, newFolders_cons]
    by_cases hx : folders.contains (folderOfInstance pmap inst) = true
    · have hstep : exportInstStep pmap nm (pl, folders) inst = (pl, folders) := by
        unfold exportInstStep
        dsimp only
        rw [if_pos hx]
      rw [hstep, if_pos hx]
      exact exportInstFold_spec pmap nm rest pl folders
    · have hstep : exportInstStep pmap nm (pl, folders) inst =
          (pl ++ [(folderOfInstance pmap inst, nm)], folders ++ [folderOfInstance pmap inst]) := by
        unfold exportInstStep
        dsimp only
        rw [if_neg hx]
      rw [hstep, if_neg hx,
        exportInstFold_spec pmap nm rest (pl ++ [(folderOfInstance pmap inst, nm)])
          (folders ++ [folderOfInstance pmap inst])]
      simp

/-- The resolved folders of a nonempty instance list start with the first
instance's folder. -/
theorem resolvedFolders_cons (pmap : List (String × ProviderInfo))
    (i : GameInstanceData) (is : List GameInstanceData) :
    resolvedFolders pmap (i :: is) =
      folderOfInstance pmap i ::
        newFolders [folderOfInstance pmap i] (is.map (folderOfInstance pmap)) := by
  unfold resolvedFolders firstDedup
  rw [show (i :: is).isEmpty = false from rfl]
  rw [List.map_cons, newFolders_cons, if_neg (by simp)]
  rfl

/-- One export step appends the file's per-folder placements (one per
resolved folder) and tallies the file, when its bytes are present. -/
theorem exportFileStep_spec (store : List (String × String))
    (pmap : List (String × ProviderInfo)) (acc : List (String × String) × Nat)
    (pf : ProcessedFileData) :
    exportFileStep store pmap acc pf =
      (match mapGet store pf.id with
       | none => acc
       | some nm =>
         (acc.1 ++ (resolvedFolders pmap pf.extractedInstances).map (fun fd => (fd, nm)),
          acc.2 + 1)) := by
  unfold exportFileStep
  cases hs : mapGet store pf.id with
  | none => rfl
  | some nm =>
    cases hinst : pf.extractedInstances with
    | nil => simp [resolvedFolders]
    | cons i is =>
      have hnf : newFolders [] ((i :: is).map (folderOfInstance pmap)) =
          folderOfInstance pmap i ::
            newFolders [folderOfInstance pmap i] (is.map (folderOfInstance pmap)) := by
        rw [List.map_cons, newFolders_cons, if_neg (by simp)]
        rfl
      dsimp only
      rw [exportInstFold_spec pmap nm (i :: is) acc.1 [], hnf, resolvedFolders_cons]
      simp

/-- The export fold over completed files: placements are the concatenation of
each available file's per-folder placements, and the tally counts the files
with available bytes. -/
theorem exportFold_spec (store : List (String × String))
    (pmap : List (String × ProviderInfo)) :
    ∀ (l : List ProcessedFileData) (acc : List (String × String) × Nat),
      l.foldl (exportFileStep store pmap) acc =
        (acc.1 ++ (l.filterMap (fun pf => (mapGet store pf.id).map
            (fun nm => (resolvedFolders pmap pf.extractedInstances).map (fun fd => (fd, nm))))).flatten,
         acc.2 + (l.filter (fun pf => (mapGet store pf.id).isSome)).length)
  | [], acc => by simp
  | pf :: rest, acc => by
    rw [List.foldl_cons, exportFileStep_spec]
    cases hs : mapGet store pf.id with
    | none =>
      rw [exportFold_spec store pmap rest acc]
      simp [List.filterMap_cons, List.filter_cons, hs]
    | some nm =>
      rw [exportFold_spec store pmap rest
        (acc.1 ++ (resolvedFolders pmap pf.extractedInstances).map (fun fd => (fd, nm)), acc.2 + 1)]
      simp [List.filterMap_cons, List.filter_cons, hs]
      omega

/-- The full export characterization. -/
theorem handleExportZip_spec (files : List ProcessedFileData)
    (store : List (String × String)) (pmap : List (String × ProviderInfo)) :
    handleExportZip files store pmap =
      (((files.filter (fun f => f.status == FileStatus.completed)).filterMap
          (fun pf => (mapGet store pf.id).map
            (fun nm => (resolvedFolders pmap pf.extractedInstances).map (fun fd => (fd, nm))))).flatten,
       ((files.filter (fun f => f.status == FileStatus.completed)).filter
          (fun pf => (mapGet store pf.id).isSome)).length) := by
  unfold handleExportZip
  rw [exportFold_spec store pmap _ ([], 0)]
  simp

/-- Every resolved-folder list is nonempty and duplicate-free. -/
theorem resolvedFolders_nodup_ne_nil (pmap : List (String × ProviderInfo))
    (insts : List GameInstanceData) :
    (resolvedFolders pmap insts).Nodup ∧ resolvedFolders pmap insts ≠ [] := by
  cases insts with
  | nil => simp [resolvedFolders]
  | cons i is =>
    rw [resolvedFolders_cons]
    constructor
    · refine List.nodup_cons.mpr ⟨?_, (newFolders_nodup _ _).1⟩
      intro hmem
      exact (newFolders_nodup (is.map (folderOfInstance pmap)) [folderOfInstance pmap i]).2
        _ hmem (by simp)
    · simp


/-- Provider table sending two normalized keys to two different providers. -/
def cexPmap : List (String × ProviderInfo) :=
  [ ("a", { provider := "Acme", portalLiveDate := none, imsGameCode := none })
  , ("b", { provider := "Bravo", portalLiveDate := none, imsGameCode := none }) ]

/-- A completed file whose two instances resolve to two different providers. -/
def cexFile : ProcessedFileData :=
  { id := "f1", pdfFileName := "f1.pdf", status := FileStatus.completed
    errorMessage := none, reportNumber := none, certificationDate := none
    supplierRegistrationNumber := none
    extractedInstances :=
      [ { gameName := some "a", gameCode := none, files := [] }
      , { gameName := some "b", gameCode := none, files := [] } ] }

/-- The file store holding the counterexample file's bytes. -/
def cexStore : List (String × String) := [("f1", "f1.pdf")]

/-- C3 counterexample: a completed file whose instances resolve to two
different provider groups is placed into both folders — the per-file set
only deduplicates per folder, so the first resolved group does not win and
the file appears under two folders, contradicting at-most-one placement. -/
theorem export_file_in_two_folders :
    (handleExportZip [cexFile] cexStore cexPmap).1 =
      [("Acme", "f1.pdf"), ("Bravo", "f1.pdf")] := by
  decide

/-- C3 (amended): the export places each completed file with available bytes
exactly once into every distinct group resolved by its instances, in
first-occurrence order (so a file with instances resolving to several groups
appears under each of them once, never twice under the same folder), and a
completed file with no instances is placed into the Uncategorized folder
exactly once. -/
theorem export_per_folder_placement (files : List ProcessedFileData)
    (store : List (String × String)) (pmap : List (String × ProviderInfo)) :
    (handleExportZip files store pmap).1 =
      ((files.filter (fun f => f.status == FileStatus.completed)).filterMap
        (fun pf => (mapGet store pf.id).map
          (fun nm => (resolvedFolders pmap pf.extractedInstances).map (fun fd => (fd, nm))))).flatten ∧
    (∀ insts, (resolvedFolders pmap insts).Nodup) ∧
    (∀ insts, insts = ([] : List GameInstanceData) →
      resolvedFolders pmap insts = ["Uncategorized"]) :=
  ⟨congrArg Prod.fst (handleExportZip_spec files store pmap),
   fun insts => (resolvedFolders_nodup_ne_nil pmap insts).1,
   fun _ h => by rw [h]; rfl⟩

/-- Witness for the amended C3 at the two-provider counterexample data. -/
theorem export_per_folder_placement_witness :
    (handleExportZip [cexFile] cexStore cexPmap).1 =
      (([cexFile].filter (fun f => f.status == FileStatus.completed)).filterMap
        (fun pf => (mapGet cexStore pf.id).map
          (fun nm => (resolvedFolders cexPmap pf.extractedInstances).map (fun fd => (fd, nm))))).flatten ∧
    (resolvedFolders cexPmap cexFile.extractedInstances).Nodup ∧
    resolvedFolders cexPmap ([] : List GameInstanceData) = ["Uncategorized"] :=
  ⟨(export_per_folder_placement [cexFile] cexStore cexPmap).1,
   (export_per_folder_placement [cexFile] cexStore cexPmap).2.1 cexFile.extractedInstances,
   (export_per_folder_placement [cexFile] cexStore cexPmap).2.2 [] rfl⟩

/-- C9: a completed file whose bytes are absent from the store contributes
nothing and is not tallied, every completed file with available bytes is
placed into at least one folder, and the reported exported-file count equals
the number of completed files with available bytes. -/
theorem export_count_matches_available (files : List ProcessedFileData)
    (store : List (String × String)) (pmap : List (String × ProviderInfo)) :
    (handleExportZip files store pmap).2 =
      ((files.filter (fun f => f.status == FileStatus.completed)).filter
        (fun pf => (mapGet store pf.id).isSome)).length ∧
    (∀ pf ∈ files, pf.status = FileStatus.completed →
      ∀ nm, mapGet store pf.id = some nm →
        ∃ fd, (fd, nm) ∈ (handleExportZip files store pmap).1) := by
  constructor
  · exact congrArg Prod.snd (handleExportZip_spec files store pmap)
  · intro pf hpf hc nm hnm
    have hplace : (handleExportZip files store pmap).1 =
        ((files.filter (fun f => f.status == FileStatus.completed)).filterMap
          (fun pf => (mapGet store pf.id).map
            (fun nm => (resolvedFolders pmap pf.extractedInstances).map (fun fd => (fd, nm))))).flatten :=
      congrArg Prod.fst (handleExportZip_spec files store pmap)
    rw [hplace]
    have hfil : pf ∈ files.filter (fun f => f.status == FileStatus.completed) :=
      List.mem_filter.mpr ⟨hpf, by simp [hc]⟩
    have hblock : (resolvedFolders pmap pf.extractedInstances).map (fun fd => (fd, nm)) ∈
        (files.filter (fun f => f.status == FileStatus.completed)).filterMap
          (fun pf => (mapGet store pf.id).map
            (fun nm => (resolvedFolders pmap pf.extractedInstances).map (fun fd => (fd, nm)))) := by
      apply List.mem_filterMap.mpr
      exact ⟨pf, hfil, by rw [hnm]; rfl⟩
    rcases List.exists_mem_of_ne_nil _ (resolvedFolders_nodup_ne_nil pmap pf.extractedInstances).2
      with ⟨fd, hfd⟩
    exact ⟨fd, List.mem_flatten.mpr
      ⟨(resolvedFolders pmap pf.extractedInstances).map (fun fd => (fd, nm)), hblock,
       List.mem_map_of_mem _ hfd⟩⟩

/-- Witness for C9 at the two-provider data: one completed file with bytes,
counted once and present in the archive. -/
theorem export_count_matches_available_witness :
    (handleExportZip [cexFile] cexStore cexPmap).2 =
      (([cexFile].filter (fun f => f.status == FileStatus.completed)).filter
        (fun pf => (mapGet cexStore pf.id).isSome)).length ∧
    ∃ fd, (fd, "f1.pdf") ∈ (handleExportZip [cexFile] cexStore cexPmap).1 :=
  ⟨(export_count_matches_available [cexFile] cexStore cexPmap).1,
   (export_count_matches_available [cexFile] cexStore cexPmap).2 cexFile
     (by decide) (by decide) "f1.pdf" (by decide)⟩

/-- Property access on the null value yields nothing (before JS throws). -/
theorem jsGetField_isNull (v : JSVal) (k : String) (h : jsIsNull v = true) :
    jsGetField v k = none := by
  cases v
  · rfl
  all_goals simp [jsIsNull] at h

/-- The claim's failure condition on a file entry: it lacks a string name. -/
def badFile (f : JSVal) : Bool :=
  !(isStrName f)

/-- The claim's failure condition on an instance: a missing gameName or
gameCode key, a non-array files, or a bad file entry. -/
def badInstance (inst : JSVal) : Bool :=
  ((jsGetField inst "gameName").isNone || (jsGetField inst "gameCode").isNone ||
    !(isArrField inst "files")) || (filesOf inst).any badFile

/-- The claim's failure condition on the whole input: a missing required
top-level key, a non-array gameInstances, or a bad instance. -/
def specSchemaBad (v : JSVal) : Bool :=
  ((jsGetField v "reportNumber").isNone || (jsGetField v "certificationDate").isNone ||
    (jsGetField v "supplierRegistrationNumber").isNone ||
    !(isArrField v "gameInstances")) || (gameInstancesOf v).any badInstance

/-- The file loop succeeds exactly when no file entry is bad. -/
theorem checkFiles_ok_iff : ∀ fs : List JSVal,
    (checkFiles fs).isOk = true ↔ fs.any badFile = false
  | [] => by simp [checkFiles, Except.isOk, Except.toBool]
  | f :: fs => by
    by_cases h0 : jsIsNull f = true
    · have hs : isStrName f = false := by
        unfold isStrName
        rw [jsGetField_isNull f "name" h0]
      simp [checkFiles, h0, badFile, hs, Except.isOk, Except.toBool]
    · have h0' : jsIsNull f = false := by simpa using h0
      by_cases hs : isStrName f = true
      · simp [checkFiles, h0', hs, badFile, checkFiles_ok_iff fs]
      · have hs' : isStrName f = false := by simpa using hs
        simp [checkFiles, h0', hs', badFile, Except.isOk, Except.toBool]

/-- The instance loop succeeds exactly when no instance is bad. -/
theorem checkInstances_ok_iff : ∀ l : List JSVal,
    (checkInstances l).isOk = true ↔ l.any badInstance = false
  | [] => by simp [checkInstances, Except.isOk, Except.toBool]
  | inst :: rest => by
    by_cases h0 : jsIsNull inst = true
    · have hb : badInstance inst = true := by
        unfold badInstance
        rw [jsGetField_isNull inst "gameName" h0]
        simp
      simp [checkInstances, h0, hb, Except.isOk, Except.toBool]
    · have h0' : jsIsNull inst = false := by simpa using h0
      by_cases hsh : ((jsGetField inst "gameName").isNone || (jsGetField inst "gameCode").isNone ||
          !(isArrField inst "files")) = true
      · have hb : badInstance inst = true := by
          unfold badInstance
          rw [hsh]
          simp
        simp [checkInstances, h0', hsh, hb, Except.isOk, Except.toBool]
      · have hsh' : ((jsGetField inst "gameName").isNone || (jsGetField inst "gameCode").isNone ||
            !(isArrField inst "files")) = false := by rwa [Bool.not_eq_true] at hsh
        cases hcf : checkFiles (filesOf inst) with
        | ok u =>
          have hfiles : (filesOf inst).any badFile = false :=
            (checkFiles_ok_iff (filesOf inst)).mp (by rw [hcf]; rfl)
          have hb : badInstance inst = false := by
            unfold badInstance
            rw [hsh', hfiles]
            rfl
          simp [checkInstances, h0', hsh', hcf, hb, checkInstances_ok_iff rest]
        | error e =>
          have hfiles : (filesOf inst).any badFile = true := by
            cases hfa : (filesOf inst).any badFile
            · have := (checkFiles_ok_iff (filesOf inst)).mpr hfa
              rw [hcf] at this
              simp [Except.isOk, Except.toBool] at this
            · rfl
          have hb : badInstance inst = true := by
            unfold badInstance
            rw [hfiles]
            simp
          simp [checkInstances, h0', hsh', hcf, hb, Except.isOk, Except.toBool]

/-- C5: the validator fails exactly on the claim's conditions (a required
top-level key absent, gameInstances not an array, an instance lacking the
gameName or gameCode key or with a non-array files, or a file entry without
a string name), and on success every nullish optional field comes out as an
explicit null — including each file's md5 and sha1 when absent. -/
theorem validator_schema_characterization (v : JSVal) :
    ((validateAndStructureData v).isOk = true ↔ specSchemaBad v = false) ∧
    (∀ out, validateAndStructureData v = Except.ok out →
      ((jsGetField v "reportNumber" = none ∨ jsGetField v "reportNumber" = some JSVal.null) →
        out.reportNumber = JSVal.null) ∧
      ((jsGetField v "certificationDate" = none ∨ jsGetField v "certificationDate" = some JSVal.null) →
        out.certificationDate = JSVal.null) ∧
      ((jsGetField v "supplierRegistrationNumber" = none ∨
          jsGetField v "supplierRegistrationNumber" = some JSVal.null) →
        out.supplierRegistrationNumber = JSVal.null) ∧
      out.gameInstances.length = (gameInstancesOf v).length ∧
      (∀ (i : Nat) (inst : JSVal), (gameInstancesOf v)[i]? = some inst →
        ∃ gi : GameInstanceJ, out.gameInstances[i]? = some gi ∧
          ((jsGetField inst "gameName" = none ∨ jsGetField inst "gameName" = some JSVal.null) →
            gi.gameName = JSVal.null) ∧
          ((jsGetField inst "gameCode" = none ∨ jsGetField inst "gameCode" = some JSVal.null) →
            gi.gameCode = JSVal.null) ∧
          gi.files.length = (filesOf inst).length ∧
          (∀ (j : Nat) (fv : JSVal), (filesOf inst)[j]? = some fv →
            ∃ fd : FileDetailJ, gi.files[j]? = some fd ∧
              (jsGetField fv "md5" = none → fd.md5 = JSVal.null) ∧
              (jsGetField fv "sha1" = none → fd.sha1 = JSVal.null)))) := by
  constructor
  · by_cases h0 : jsIsNull v = true
    · have h1 := jsGetField_isNull v "reportNumber" h0
      simp [validateAndStructureData, h0, specSchemaBad, h1, Except.isOk, Except.toBool]
    · have h0' : jsIsNull v = false := by simpa using h0
      by_cases htop : ((jsGetField v "reportNumber").isNone ||
          (jsGetField v "certificationDate").isNone ||
          (jsGetField v "supplierRegistrationNumber").isNone ||
          !(isArrField v "gameInstances")) = true
      · simp [validateAndStructureData, h0', htop, specSchemaBad, Except.isOk, Except.toBool]
      · have htop' : ((jsGetField v "reportNumber").isNone ||
            (jsGetField v "certificationDate").isNone ||
            (jsGetField v "supplierRegistrationNumber").isNone ||
            !(isArrField v "gameInstances")) = false := by rwa [Bool.not_eq_true] at htop
        cases hchk : checkInstances (gameInstancesOf v) with
        | ok u =>
          have hany := (checkInstances_ok_iff (gameInstancesOf v)).mp (by rw [hchk]; rfl)
          simp [validateAndStructureData, h0', htop', specSchemaBad, hchk, hany, Except.isOk, Except.toBool]
        | error e =>
          have hany : (gameInstancesOf v).any badInstance = true := by
            cases hca : (gameInstancesOf v).any badInstance
            · have := (checkInstances_ok_iff (gameInstancesOf v)).mpr hca
              rw [hchk] at this
              simp [Except.isOk, Except.toBool] at this
            · rfl
          simp [validateAndStructureData, h0', htop', specSchemaBad, hchk, hany, Except.isOk, Except.toBool]
  · intro out hout
    unfold validateAndStructureData at hout
    by_cases h0 : jsIsNull v = true
    · rw [if_pos h0] at hout
      exact absurd hout (by simp)
    · have h0' : jsIsNull v = false := by simpa using h0
      rw [if_neg (by simp [h0'])] at hout
      by_cases htop : ((jsGetField v "reportNumber").isNone ||
          (jsGetField v "certificationDate").isNone ||
          (jsGetField v "supplierRegistrationNumber").isNone ||
          !(isArrField v "gameInstances")) = true
      · rw [if_pos htop] at hout
        exact absurd hout (by simp)
      · rw [if_neg htop] at hout
        cases hchk : checkInstances (gameInstancesOf v) with
        | error e =>
          rw [hchk] at hout
          exact absurd hout (by simp)
        | ok u =>
          rw [hchk] at hout
          injection hout with hrec
          subst hrec
          refine ⟨?_, ?_, ?_, by simp, ?_⟩
          · rintro (hr | hr) <;> simp [hr, jsCoalesceNull]
          · rintro (hr | hr) <;> simp [hr, jsCoalesceNull]
          · rintro (hr | hr) <;> simp [hr, jsCoalesceNull]
          · intro i inst hi
            refine ⟨buildInstance inst, ?_, ?_, ?_, ?_, ?_⟩
            · simp [List.getElem?_map, hi]
            · rintro (hr | hr) <;> simp [buildInstance, hr, jsCoalesceNull]
            · rintro (hr | hr) <;> simp [buildInstance, hr, jsCoalesceNull]
            · simp [buildInstance]
            · intro j fv hj
              refine ⟨buildFile fv, ?_, ?_, ?_⟩
              · simp [buildInstance, List.getElem?_map, hj]
              · intro hr
                simp [buildFile, hr, jsUndefToNull]
              · intro hr
                simp [buildFile, hr, jsUndefToNull]

/-- The schema-defaulting test input of the specification. -/
def c5v : JSVal :=
  JSVal.obj
    [ ("reportNumber", JSVal.null)
    , ("certificationDate", JSVal.null)
    , ("supplierRegistrationNumber", JSVal.null)
    , ("gameInstances", JSVal.arr
        [ JSVal.obj
            [ ("gameName", JSVal.str "X")
            , ("gameCode", JSVal.null)
            , ("files", JSVal.arr [JSVal.obj [("name", JSVal.str "a.dll")]]) ] ]) ]

/-- The validator's output on the schema-defaulting test input. -/
def c5out : ExtractedInfoJ :=
  { reportNumber := JSVal.null
    certificationDate := JSVal.null
    supplierRegistrationNumber := JSVal.null
    gameInstances :=
      [ { gameName := JSVal.str "X"
          gameCode := JSVal.null
          files := [{ name := "a.dll", md5 := JSVal.null, sha1 := JSVal.null }] } ] }

/-- Witness for C5: the specification's defaulting example validates
successfully and every nullish field of its output is an explicit null. -/
theorem validator_schema_characterization_witness :
    specSchemaBad c5v = false ∧
    (validateAndStructureData c5v).isOk = true ∧
    (((jsGetField c5v "reportNumber" = none ∨ jsGetField c5v "reportNumber" = some JSVal.null) →
        c5out.reportNumber = JSVal.null) ∧
      ((jsGetField c5v "certificationDate" = none ∨
          jsGetField c5v "certificationDate" = some JSVal.null) →
        c5out.certificationDate = JSVal.null) ∧
      ((jsGetField c5v "supplierRegistrationNumber" = none ∨
          jsGetField c5v "supplierRegistrationNumber" = some JSVal.null) →
        c5out.supplierRegistrationNumber = JSVal.null) ∧
      c5out.gameInstances.length = (gameInstancesOf c5v).length ∧
      (∀ (i : Nat) (inst : JSVal), (gameInstancesOf c5v)[i]? = some inst →
        ∃ gi : GameInstanceJ, c5out.gameInstances[i]? = some gi ∧
          ((jsGetField inst "gameName" = none ∨ jsGetField inst "gameName" = some JSVal.null) →
            gi.gameName = JSVal.null) ∧
          ((jsGetField inst "gameCode" = none ∨ jsGetField inst "gameCode" = some JSVal.null) →
            gi.gameCode = JSVal.null) ∧
          gi.files.length = (filesOf inst).length ∧
          (∀ (j : Nat) (fv : JSVal), (filesOf inst)[j]? = some fv →
            ∃ fd : FileDetailJ, gi.files[j]? = some fd ∧
              (jsGetField fv "md5" = none → fd.md5 = JSVal.null) ∧
              (jsGetField fv "sha1" = none → fd.sha1 = JSVal.null)))) :=
  ⟨rfl, (validator_schema_characterization c5v).1.mpr rfl,
   (validator_schema_characterization c5v).2 c5out rfl⟩

/-- Whitespace characters are fixed by lower-casing. -/
theorem wsC_jsLower_fix (c : Char) (h : wsC c = true) : jsLower c = c := by
  simp [wsC] at h
  rcases h with ((((h | h) | h) | h) | h) | h <;> subst h <;> decide

/-- Case-insensitive character comparison is symmetric. -/
theorem ciEq_symm (a b : Char) : ciEq a b = ciEq b a := by
  unfold ciEq
  by_cases h : jsLower a = jsLower b
  · simp [h]
  · have h2 : jsLower b ≠ jsLower a := fun hh => h hh.symm
    simp [h, h2]

/-- A case-insensitive head comparison extracted from a leading match. -/
theorem ciLeads_head_ciEq (p0 : Char) (ps : List Char) (x0 : Char) (xs : List Char)
    (h : ciLeads (p0 :: ps) (x0 :: xs) = true) : ciEq p0 x0 = true := by
  unfold ciLeads at h
  rw [Bool.and_eq_true] at h
  exact h.1

/-- A pattern no longer than the first part matches an append exactly when it
matches the first part. -/
theorem ciLeads_append_long : ∀ (p x y : List Char), p.length ≤ x.length →
    ciLeads p (x ++ y) = ciLeads p x
  | [], _, _, _ => rfl
  | p0 :: ps, [], y, h => by simp at h
  | p0 :: ps, x0 :: xs, y, h => by
    show (ciEq p0 x0 && ciLeads ps (xs ++ y)) = (ciEq p0 x0 && ciLeads ps xs)
    rw [ciLeads_append_long ps xs y (by simpa using h)]

/-- Matching a pattern against an append splits into independent matches of
the two parts when the first part is no longer than the pattern. -/
theorem ciLeads_append_split : ∀ (p x y : List Char), x.length ≤ p.length →
    ciLeads p (x ++ y) = (ciLeads (p.take x.length) x && ciLeads (p.drop x.length) y)
  | p, [], y, _ => by simp [ciLeads]
  | [], x0 :: xs, y, h => by simp at h
  | p0 :: ps, x0 :: xs, y, h => by
    show (ciEq p0 x0 && ciLeads ps (xs ++ y)) = _
    rw [ciLeads_append_split ps xs y (by simpa using h), List.length_cons,
      List.take_succ_cons, List.drop_succ_cons]
    show _ = ((ciEq p0 x0 && ciLeads (ps.take xs.length) xs) && ciLeads (ps.drop xs.length) y)
    rw [Bool.and_assoc]

/-- A leading match flips when the lengths agree. -/
theorem ciLeads_flip : ∀ (x p : List Char), ciLeads x p = true → x.length = p.length →
    ciLeads p x = true
  | [], [], _, _ => rfl
  | [], _ :: _, _, hl => by simp at hl
  | _ :: _, [], h, _ => by simp [ciLeads] at h
  | x0 :: xs, p0 :: ps, h, hl => by
    unfold ciLeads at h ⊢
    rw [Bool.and_eq_true] at h
    rw [ciEq_symm, h.1, ciLeads_flip xs ps h.2 (by simpa using hl)]
    rfl

/-- A full case-insensitive match of the first part lets the pattern lead an
append. -/
theorem ciLeads_append_of_ciEqList (x p y : List Char) (h : ciEqList x p = true) :
    ciLeads p (x ++ y) = true := by
  unfold ciEqList at h
  rw [Bool.and_eq_true] at h
  have hl : x.length = p.length := by simpa using h.1
  rw [ciLeads_append_split p x y hl.le, hl, List.take_length, List.drop_length,
    ciLeads_flip x p h.2 hl]
  rfl

/-- The least index below n satisfying the predicate is what range-search
finds. -/
theorem findRangeLeast : ∀ (n : Nat) (p : Nat → Bool) (i : Nat), i < n → p i = true →
    (∀ j, j < i → p j = false) → (List.range n).find? p = some i
  | 0, _, i, h, _, _ => absurd h (Nat.not_lt_zero i)
  | n + 1, p, i, h, hp, hj => by
    rw [List.range_succ_eq_map]
    cases i with
    | zero => rw [List.find?_cons_of_pos _ hp]
    | succ i' =>
      have h0 : p 0 = false := hj 0 (Nat.succ_pos i')
      rw [List.find?_cons_of_neg _ (by simp [h0]), List.find?_map]
      have hrec := findRangeLeast n (fun j => p (j + 1)) i' (by omega) hp
        (fun j hj' => hj (j + 1) (by omega))
      rw [show (p ∘ Nat.succ) = (fun j => p (j + 1)) from rfl, hrec]
      rfl

/-- A list splits into its whitespace-trimmed front and a whitespace tail. -/
theorem rdropWs_decomp : ∀ l : List Char, ∃ w, l = rdropWs l ++ w ∧ ∀ c ∈ w, wsC c = true
  | [] => ⟨[], rfl, by simp⟩
  | c :: cs => by
    obtain ⟨w, hw, hws⟩ := rdropWs_decomp cs
    unfold rdropWs
    by_cases hc : ((rdropWs cs).isEmpty && wsC c) = true
    · rw [if_pos hc]
      rw [Bool.and_eq_true, List.isEmpty_iff] at hc
      refine ⟨c :: cs, by simp, ?_⟩
      intro x hx
      rcases List.mem_cons.mp hx with rfl | hx'
      · exact hc.2
      · apply hws
        rw [hw, hc.1] at hx'
        simpa using hx'
    · rw [if_neg hc]
      exact ⟨w, by rw [List.cons_append, ← hw], hws⟩

/-- An all-whitespace list trims from the right to nothing. -/
theorem rdropWs_nil_of_all_ws : ∀ l : List Char, (∀ c ∈ l, wsC c = true) → rdropWs l = []
  | [], _ => rfl
  | c :: cs, h => by
    unfold rdropWs
    rw [rdropWs_nil_of_all_ws cs (fun x hx => h x (List.mem_cons_of_mem c hx))]
    simp [h c (List.mem_cons_self c cs)]

/-- When everything from position j on is whitespace, the right-trimmed list
is no longer than j. -/
theorem rdropWs_length_le : ∀ (l : List Char) (j : Nat), (∀ c ∈ l.drop j, wsC c = true) →
    (rdropWs l).length ≤ j
  | [], j, _ => by simp [rdropWs]
  | c :: cs, 0, h => by
    rw [rdropWs_nil_of_all_ws (c :: cs) (by simpa using h)]
    simp
  | c :: cs, j + 1, h => by
    have ih := rdropWs_length_le cs j (by simpa using h)
    unfold rdropWs
    by_cases hc : ((rdropWs cs).isEmpty && wsC c) = true
    · rw [if_pos hc]
      simp
    · rw [if_neg hc]
      simpa using Nat.succ_le_succ ih

/-- Dropping the predicate over an all-satisfying front continues into the
tail. -/
theorem dropWhile_append_all {p : Char → Bool} : ∀ (w y : List Char),
    (∀ c ∈ w, p c = true) → (w ++ y).dropWhile p = y.dropWhile p
  | [], _, _ => rfl
  | c :: cs, y, h => by
    rw [List.cons_append, List.dropWhile_cons, if_pos (h c (List.mem_cons_self c cs))]
    exact dropWhile_append_all cs y (fun x hx => h x (List.mem_cons_of_mem c hx))

/-- A nonempty residue of dropWhile in the first part absorbs the append. -/
theorem dropWhile_append_of_ne_nil {p : Char → Bool} : ∀ (x y : List Char),
    x.dropWhile p ≠ [] → (x ++ y).dropWhile p = x.dropWhile p ++ y
  | [], _, h => absurd rfl h
  | c :: cs, y, h => by
    by_cases hc : p c = true
    · rw [List.cons_append, List.dropWhile_cons, if_pos hc, List.dropWhile_cons, if_pos hc]
      apply dropWhile_append_of_ne_nil
      intro hnil
      apply h
      rw [List.dropWhile_cons, if_pos hc, hnil]
    · rw [List.cons_append, List.dropWhile_cons, if_neg hc, List.dropWhile_cons, if_neg hc]
      simp

/-- Dropping as many elements as the takeWhile front is the dropWhile. -/
theorem drop_takeWhile_length {p : Char → Bool} : ∀ l : List Char,
    l.drop (l.takeWhile p).length = l.dropWhile p
  | [] => rfl
  | c :: cs => by
    by_cases hc : p c = true
    · rw [List.takeWhile_cons, if_pos hc, List.dropWhile_cons, if_pos hc, List.length_cons,
        List.drop_succ_cons]
      exact drop_takeWhile_length cs
    · rw [List.takeWhile_cons, if_neg hc, List.dropWhile_cons, if_neg hc]
      rfl

/-- C7 (amended): the copy-removal step removes exactly the leftmost
case-insensitive copy token together with the whitespace run immediately
before it, and nothing else — in particular any later copy tokens survive:
for every prefix a containing no copy token, any case variant of the token,
and any tail b, removing from a-token-b yields the right-trimmed a followed
by the untouched b. -/
theorem normalize_removes_leftmost_copy (a tok b : List Char)
    (hTok : ciEqList tok copyTok = true)
    (hNo : ∀ i, i < a.length → ciLeads copyTok (a.drop i) = false) :
    removeCopyL (a ++ tok ++ b) = rdropWs a ++ b := by
  obtain ⟨w, hw, hws⟩ := rdropWs_decomp a
  have hTok' := hTok
  unfold ciEqList at hTok'
  rw [Bool.and_eq_true] at hTok'
  have hlenTok : tok.length = 6 := by simpa using hTok'.1
  obtain ⟨t0, ts, rfl⟩ : ∃ t0 ts, tok = t0 :: ts := by
    cases tok with
    | nil => simp at hlenTok
    | cons t0 ts => exact ⟨t0, ts, rfl⟩
  have ht0 : jsLower t0 = '(' := by
    have h2 : ciEq t0 '(' = true := ciLeads_head_ciEq t0 ts '(' "copy)".data hTok'.2
    unfold ciEq at h2
    have := (beq_iff_eq.mp h2)
    simpa using this
  have ht0ws : wsC t0 = false := by
    cases hcw : wsC t0 with
    | false => rfl
    | true =>
      have := wsC_jsLower_fix t0 hcw
      rw [ht0] at this
      rw [← this] at hcw
      exact absurd hcw (by decide)
  have hilen : (rdropWs a).length ≤ a.length := by
    conv_rhs => rw [hw]
    simp
  have hassoc : a ++ (t0 :: ts) ++ b = rdropWs a ++ (w ++ ((t0 :: ts) ++ b)) := by
    conv_lhs => rw [hw]
    simp
  have htake : (a ++ (t0 :: ts) ++ b).take (rdropWs a).length = rdropWs a := by
    rw [hassoc]
    exact List.take_left (rdropWs a) _
  have hdrop : (a ++ (t0 :: ts) ++ b).drop (rdropWs a).length = w ++ ((t0 :: ts) ++ b) := by
    rw [hassoc]
    exact List.drop_left (rdropWs a) _
  have hdw : ((a ++ (t0 :: ts) ++ b).drop (rdropWs a).length).dropWhile wsC =
      (t0 :: ts) ++ b := by
    rw [hdrop, dropWhile_append_all w _ hws, List.cons_append, List.dropWhile_cons,
      if_neg (by simp [ht0ws])]
  have hmatch : copyMatchAt (a ++ (t0 :: ts) ++ b) (rdropWs a).length = true := by
    unfold copyMatchAt
    rw [hdw]
    exact ciLeads_append_of_ciEqList (t0 :: ts) copyTok b hTok
  have hearly : ∀ j, j < (rdropWs a).length →
      copyMatchAt (a ++ (t0 :: ts) ++ b) j = false := by
    intro j hj
    cases hcm : copyMatchAt (a ++ (t0 :: ts) ++ b) j with
    | false => rfl
    | true =>
      exfalso
      have hja : j < a.length := lt_of_lt_of_le hj hilen
      unfold copyMatchAt at hcm
      have hdj : (a ++ (t0 :: ts) ++ b).drop j = a.drop j ++ ((t0 :: ts) ++ b) := by
        rw [List.append_assoc]
        exact List.drop_append_of_le_length (le_of_lt hja)
      rw [hdj] at hcm
      by_cases hd : (a.drop j).dropWhile wsC = []
      · have hall : ∀ c ∈ a.drop j, wsC c = true := by
          intro c hcmem
          have := List.dropWhile_eq_nil_iff.mp hd
          exact this c hcmem
        have := rdropWs_length_le a j hall
        omega
      · rw [dropWhile_append_of_ne_nil _ _ hd] at hcm
        have hq1 : (a.drop j).drop ((a.drop j).takeWhile wsC).length =
            (a.drop j).dropWhile wsC := drop_takeWhile_length (a.drop j)
        have hdq : (a.drop j).dropWhile wsC =
            a.drop (j + ((a.drop j).takeWhile wsC).length) := by
          rw [← List.drop_drop, hq1]
        set q := j + ((a.drop j).takeWhile wsC).length with hqdef
        have hqa : q < a.length := by
          by_contra hge
          have : a.drop q = [] := List.drop_eq_nil_of_le (by omega)
          rw [hdq, this] at hd
          exact hd rfl
        have hdlen : ((a.drop j).dropWhile wsC).length = a.length - q := by
          rw [hdq, List.length_drop]
        by_cases hlong : 6 ≤ a.length - q
        · have hle : copyTok.length ≤ ((a.drop j).dropWhile wsC).length := by
            rw [hdlen]
            simpa using hlong
          rw [ciLeads_append_long copyTok _ _ hle, hdq] at hcm
          have := hNo q hqa
          rw [this] at hcm
          exact absurd hcm (by simp)
        · have hxle : ((a.drop j).dropWhile wsC).length ≤ copyTok.length := by
            rw [hdlen]
            show a.length - q ≤ 6
            omega
          rw [ciLeads_append_split copyTok _ _ hxle, Bool.and_eq_true] at hcm
          have hsec := hcm.2
          have hge1 : 1 ≤ ((a.drop j).dropWhile wsC).length := by
            cases hnn : (a.drop j).dropWhile wsC with
            | nil => exact absurd hnn hd
            | cons _ _ => simp [hnn]
          have hle5 : ((a.drop j).dropWhile wsC).length ≤ 5 := by
            rw [hdlen]
            omega
          have hch : jsLower (copyTok.drop ((a.drop j).dropWhile wsC).length).headI ≠ '(' ∧
              copyTok.drop ((a.drop j).dropWhile wsC).length ≠ [] := by
            interval_cases h : ((a.drop j).dropWhile wsC).length <;> exact ⟨by decide, by decide⟩
          obtain ⟨hc0, hcrest, hceq⟩ : ∃ c0 crest,
              copyTok.drop ((a.drop j).dropWhile wsC).length = c0 :: crest := by
            cases hnn : copyTok.drop ((a.drop j).dropWhile wsC).length with
            | nil => exact absurd hnn hch.2
            | cons c0 crest => exact ⟨c0, crest, rfl⟩
          rw [hceq] at hsec
          have hcif := ciLeads_head_ciEq hc0 hcrest t0 (ts ++ b)
            (by rw [← List.cons_append]; exact hsec)
          unfold ciEq at hcif
          have heq2 := beq_iff_eq.mp hcif
          rw [ht0] at heq2
          have hhead : jsLower (copyTok.drop ((a.drop j).dropWhile wsC).length).headI = '(' := by
            rw [hceq]
            simpa using heq2
          exact hch.1 hhead
  have hfind : ((List.range ((a ++ (t0 :: ts) ++ b).length + 1)).find?
      (fun i => copyMatchAt (a ++ (t0 :: ts) ++ b) i)) = some (rdropWs a).length := by
    apply findRangeLeast
    · have : a.length ≤ (a ++ (t0 :: ts) ++ b).length := by simp
      omega
    · exact hmatch
    · exact hearly
  unfold removeCopyL
  rw [hfind]
  dsimp only
  rw [htake, hdw]
  have hdrop6 : ((t0 :: ts) ++ b).drop 6 = b := by
    have := List.drop_left (t0 :: ts) b
    rwa [hlenTok] at this
  rw [hdrop6]

/-- Witness for the amended C7: the token and its adjacent whitespace are
removed from the middle of a concrete string while the later copy token in
the tail survives. -/
theorem normalize_removes_leftmost_copy_witness :
    removeCopyL ("x".data ++ "(Copy)".data ++ " y (copy)".data) =
      rdropWs "x".data ++ " y (copy)".data ∧
    rdropWs "x".data ++ " y (copy)".data = "x y (copy)".data :=
  ⟨normalize_removes_leftmost_copy "x".data "(Copy)".data " y (copy)".data
    (by decide) (by decide), by decide⟩

/-- Lower-casing is idempotent. -/
theorem jsLower_idem (c : Char) : jsLower (jsLower c) = jsLower c := by
  by_cases h : 65 ≤ c.toNat ∧ c.toNat ≤ 90
  · obtain ⟨h1, h2⟩ := h
    have hstep : jsLower c = Char.ofNat (c.toNat + 32) := by
      unfold jsLower
      rw [if_pos ⟨h1, h2⟩]
    rw [hstep]
    have hv : (c.toNat + 32).isValidChar := Or.inl (by omega)
    have htn : (Char.ofNat (c.toNat + 32)).toNat = c.toNat + 32 := by
      unfold Char.ofNat
      rw [dif_pos hv]
      rfl
    have hcond : ¬(65 ≤ (Char.ofNat (c.toNat + 32)).toNat ∧
        (Char.ofNat (c.toNat + 32)).toNat ≤ 90) := by
      rw [htn]
      intro h2'
      omega
    unfold jsLower
    rw [if_neg hcond]
  · have hstep : jsLower c = c := by
      unfold jsLower
      rw [if_neg h]
    rw [hstep]
    exact hstep

/-- The right trim only keeps characters of the list. -/
theorem mem_rdropWs : ∀ (l : List Char) (c : Char), c ∈ rdropWs l → c ∈ l
  | [], _, h => absurd h (List.not_mem_nil _)
  | x :: xs, c, h => by
    unfold rdropWs at h
    by_cases hc : ((rdropWs xs).isEmpty && wsC x) = true
    · rw [if_pos hc] at h
      exact absurd h (List.not_mem_nil _)
    · rw [if_neg hc] at h
      rcases List.mem_cons.mp h with rfl | h'
      · exact List.mem_cons_self _ _
      · exact List.mem_cons_of_mem _ (mem_rdropWs xs c h')

/-- The trim only keeps characters of the list. -/
theorem mem_trimWs (l : List Char) (c : Char) (h : c ∈ trimWs l) : c ∈ l :=
  (List.dropWhile_suffix wsC).subset (mem_rdropWs _ _ h)

/-- Whitespace collapsing only introduces spaces. -/
theorem mem_collapseWsAux : ∀ (l : List Char) (flag : Bool) (c : Char),
    c ∈ collapseWsAux flag l → c = ' ' ∨ c ∈ l
  | [], _, _, h => absurd h (List.not_mem_nil _)
  | x :: xs, flag, c, h => by
    unfold collapseWsAux at h
    by_cases hx : wsC x = true
    · rw [if_pos hx] at h
      by_cases hf : flag = true
      · rw [if_pos hf] at h
        rcases mem_collapseWsAux xs true c h with h' | h'
        · exact Or.inl h'
        · exact Or.inr (List.mem_cons_of_mem _ h')
      · rw [if_neg hf] at h
        rcases List.mem_cons.mp h with rfl | h'
        · exact Or.inl rfl
        · rcases mem_collapseWsAux xs true c h' with h'' | h''
          · exact Or.inl h''
          · exact Or.inr (List.mem_cons_of_mem _ h'')
    · rw [if_neg hx] at h
      rcases List.mem_cons.mp h with rfl | h'
      · exact Or.inr (List.mem_cons_self _ _)
      · rcases mem_collapseWsAux xs false c h' with h'' | h''
        · exact Or.inl h''
        · exact Or.inr (List.mem_cons_of_mem _ h'')

/-- Every whitespace character the collapse emits is a space. -/
theorem collapseWsAux_ws_space : ∀ (l : List Char) (flag : Bool) (c : Char),
    c ∈ collapseWsAux flag l → wsC c = true → c = ' '
  | [], _, _, h, _ => absurd h (List.not_mem_nil _)
  | x :: xs, flag, c, h, hws => by
    unfold collapseWsAux at h
    by_cases hx : wsC x = true
    · rw [if_pos hx] at h
      by_cases hf : flag = true
      · rw [if_pos hf] at h
        exact collapseWsAux_ws_space xs true c h hws
      · rw [if_neg hf] at h
        rcases List.mem_cons.mp h with rfl | h'
        · rfl
        · exact collapseWsAux_ws_space xs true c h' hws
    · rw [if_neg hx] at h
      rcases List.mem_cons.mp h with rfl | h'
      · exact absurd hws (by simpa using hx)
      · exact collapseWsAux_ws_space xs false c h' hws

/-- No two adjacent whitespace characters: the collapsing relation. -/
def wsRel (a b : Char) : Prop :=
  ¬(wsC a = true ∧ wsC b = true)

/-- The collapse with the in-run flag set starts with a non-whitespace
character when nonempty. -/
theorem collapseWsAux_head_ws : ∀ l : List Char, collapseWsAux true l = [] ∨
    ∃ c rest, collapseWsAux true l = c :: rest ∧ wsC c = false
  | [] => Or.inl rfl
  | x :: xs => by
    unfold collapseWsAux
    by_cases hx : wsC x = true
    · rw [if_pos hx, if_pos rfl]
      exact collapseWsAux_head_ws xs
    · rw [if_neg hx]
      exact Or.inr ⟨x, _, rfl, by simpa using hx⟩

/-- The collapse output never has two adjacent whitespace characters. -/
theorem chain'_collapseWsAux : ∀ (l : List Char) (flag : Bool),
    List.Chain' wsRel (collapseWsAux flag l)
  | [], _ => List.chain'_nil
  | x :: xs, flag => by
    unfold collapseWsAux
    by_cases hx : wsC x = true
    · rw [if_pos hx]
      by_cases hf : flag = true
      · rw [if_pos hf]
        exact chain'_collapseWsAux xs true
      · rw [if_neg hf]
        apply List.chain'_cons'.mpr
        refine ⟨?_, chain'_collapseWsAux xs true⟩
        intro b hb
        rcases collapseWsAux_head_ws xs with hnil | ⟨c0, rest, heq, hc0⟩
        · rw [hnil] at hb
          simp at hb
        · rw [heq] at hb
          simp at hb
          subst hb
          exact fun hcon => absurd hcon.2 (by simp [hc0])
    · rw [if_neg hx]
      apply List.chain'_cons'.mpr
      refine ⟨?_, chain'_collapseWsAux xs false⟩
      intro b hb hcon
      exact absurd hcon.1 (by simpa using hx)

/-- A list of space-only whitespace with no adjacent whitespace collapses to
itself. -/
theorem collapsed_fix : ∀ l : List Char, (∀ c ∈ l, wsC c = true → c = ' ') →
    List.Chain' wsRel l → collapseWsAux false l = l
  | [], _, _ => rfl
  | x :: xs, hall, hch => by
    have hch' := List.chain'_cons'.mp hch
    unfold collapseWsAux
    by_cases hx : wsC x = true
    · rw [if_pos hx, if_neg (by simp : ¬(false = true))]
      have hxs : collapseWsAux true xs = collapseWsAux false xs := by
        cases xs with
        | nil => rfl
        | cons y ys =>
          have hy : ¬(wsC y = true) := fun hy => hch'.1 y rfl ⟨hx, hy⟩
          unfold collapseWsAux
          rw [if_neg hy, if_neg hy]
      rw [hxs, collapsed_fix xs (fun c hc => hall c (List.mem_cons_of_mem _ hc)) hch'.2,
        hall x (List.mem_cons_self _ _) hx]
    · rw [if_neg hx,
        collapsed_fix xs (fun c hc => hall c (List.mem_cons_of_mem _ hc)) hch'.2]

/-- The head of a whitespace-dropping is never whitespace. -/
theorem dropWhile_head_not : ∀ (l : List Char) (c : Char),
    (l.dropWhile wsC).head? = some c → wsC c = false
  | [], c, h => by simp at h
  | x :: xs, c, h => by
    rw [List.dropWhile_cons] at h
    by_cases hx : wsC x = true
    · rw [if_pos hx] at h
      exact dropWhile_head_not xs c h
    · rw [if_neg hx] at h
      simp at h
      subst h
      simpa using hx

/-- Dropping whitespace from a list whose head is not whitespace is the
identity. -/
theorem dropWhile_eq_self_of_head (l : List Char)
    (h : ∀ c, l.head? = some c → wsC c = false) : l.dropWhile wsC = l := by
  cases l with
  | nil => rfl
  | cons x xs =>
    rw [List.dropWhile_cons, if_neg (by simp [h x rfl])]

/-- Right trimming preserves the head (or empties the list). -/
theorem rdropWs_head? : ∀ l : List Char, rdropWs l = [] ∨ (rdropWs l).head? = l.head?
  | [] => Or.inl rfl
  | c :: cs => by
    unfold rdropWs
    by_cases hc : ((rdropWs cs).isEmpty && wsC c) = true
    · rw [if_pos hc]
      exact Or.inl rfl
    · rw [if_neg hc]
      exact Or.inr rfl

/-- The unfolding equation of the right trim on a cons cell. -/
theorem rdropWs_cons (c : Char) (cs : List Char) :
    rdropWs (c :: cs) =
      if ((rdropWs cs).isEmpty && wsC c) = true then [] else c :: rdropWs cs := rfl

/-- Right trimming is idempotent. -/
theorem rdropWs_idem : ∀ l : List Char, rdropWs (rdropWs l) = rdropWs l
  | [] => rfl
  | c :: cs => by
    by_cases hc : ((rdropWs cs).isEmpty && wsC c) = true
    · rw [rdropWs_cons c cs, if_pos hc]
      rfl
    · rw [rdropWs_cons c cs, if_neg hc, rdropWs_cons c (rdropWs cs), rdropWs_idem cs,
        if_neg hc]

/-- Trimming is idempotent. -/
theorem trimWs_idem (l : List Char) : trimWs (trimWs l) = trimWs l := by
  unfold trimWs
  have hhead : ∀ c, (rdropWs (l.dropWhile wsC)).head? = some c → wsC c = false := by
    intro c hc
    rcases rdropWs_head? (l.dropWhile wsC) with hnil | hh
    · rw [hnil] at hc
      simp at hc
    · rw [hh] at hc
      exact dropWhile_head_not l c hc
  rw [dropWhile_eq_self_of_head _ hhead, rdropWs_idem]

/-- Trimming preserves the no-adjacent-whitespace property. -/
theorem chain'_trimWs (l : List Char) (h : List.Chain' wsRel l) :
    List.Chain' wsRel (trimWs l) := by
  unfold trimWs
  have h1 : List.Chain' wsRel (l.dropWhile wsC) := h.suffix (List.dropWhile_suffix wsC)
  obtain ⟨w, hw, _⟩ := rdropWs_decomp (l.dropWhile wsC)
  exact h1.prefix ⟨w, hw.symm⟩

/-- The output of the lower-case/strip/collapse/trim tail of the pipeline is
a fixed point of each of those four steps. -/
theorem pipelineOut_fixes (Y : List Char) :
    (trimWs (collapseWs (stripSyms (Y.map jsLower)))).map jsLower =
      trimWs (collapseWs (stripSyms (Y.map jsLower))) ∧
    stripSyms (trimWs (collapseWs (stripSyms (Y.map jsLower)))) =
      trimWs (collapseWs (stripSyms (Y.map jsLower))) ∧
    collapseWs (trimWs (collapseWs (stripSyms (Y.map jsLower)))) =
      trimWs (collapseWs (stripSyms (Y.map jsLower))) ∧
    trimWs (trimWs (collapseWs (stripSyms (Y.map jsLower)))) =
      trimWs (collapseWs (stripSyms (Y.map jsLower))) := by
  have hchar : ∀ c ∈ trimWs (collapseWs (stripSyms (Y.map jsLower))),
      jsLower c = c ∧ (!(c == '™' || c == '®' || c == '©')) = true := by
    intro c hc
    have hc1 : c ∈ collapseWs (stripSyms (Y.map jsLower)) := mem_trimWs _ _ hc
    rcases mem_collapseWsAux _ false c hc1 with rfl | hc2
    · exact ⟨by decide, by decide⟩
    · obtain ⟨hmem, hpred⟩ := List.mem_filter.mp hc2
      rcases List.mem_map.mp hmem with ⟨d, _, rfl⟩
      exact ⟨jsLower_idem d, hpred⟩
  refine ⟨?_, ?_, ?_, trimWs_idem _⟩
  · rw [List.map_congr_left (fun c hc => (hchar c hc).1)]
    exact List.map_id' _
  · exact List.filter_eq_self.mpr (fun c hc => (hchar c hc).2)
  · have hall : ∀ c ∈ trimWs (collapseWs (stripSyms (Y.map jsLower))),
        wsC c = true → c = ' ' := by
      intro c hc hw
      exact collapseWsAux_ws_space _ false c (mem_trimWs _ _ hc) hw
    have hch : List.Chain' wsRel (trimWs (collapseWs (stripSyms (Y.map jsLower)))) :=
      chain'_trimWs _ (chain'_collapseWsAux _ false)
    exact collapsed_fix _ hall hch

/-- A nonempty name goes through the pipeline. -/
theorem normalizeGameName_of_ne (t : String) (h : t ≠ "") :
    normalizeGameName (some t) = String.mk (normalizePipeline t.data) := by
  show (if t = "" then ("" : String) else String.mk (normalizePipeline t.data)) =
    String.mk (normalizePipeline t.data)
  rw [if_neg h]

/-- C2 (amended): normalization is idempotent on every input whose normalized
form is a fixed point of the copy-removal and version-suffix-removal steps —
the other five steps (trim, lower-case, symbol strip, whitespace collapse,
trim) always fix a normalized name, so only those two regex steps can make a
second application differ (as they do when two copy tokens are present). -/
theorem normalize_idempotent_when_steps_fixed (s : Option String)
    (hc : removeCopyL (normalizeGameName s).data = (normalizeGameName s).data)
    (hs : removeSuffixL (normalizeGameName s).data = (normalizeGameName s).data) :
    normalizeGameName (some (normalizeGameName s)) = normalizeGameName s := by
  cases s with
  | none => rfl
  | some str =>
    by_cases hstr : str = ""
    · subst hstr
      rfl
    · by_cases htne : normalizeGameName (some str) = ""
      · rw [htne]
        rfl
      · have hdata : (normalizeGameName (some str)).data =
            trimWs (collapseWs (stripSyms
              ((removeSuffixL (removeCopyL (trimWs str.data))).map jsLower))) := by
          rw [normalizeGameName_of_ne str hstr]
          rfl
        have hfix := pipelineOut_fixes (removeSuffixL (removeCopyL (trimWs str.data)))
        rw [normalizeGameName_of_ne _ htne]
        have hpipe : normalizePipeline (normalizeGameName (some str)).data =
            (normalizeGameName (some str)).data := by
          unfold normalizePipeline
          rw [show trimWs (normalizeGameName (some str)).data =
              (normalizeGameName (some str)).data from by rw [hdata]; exact hfix.2.2.2]
          rw [hc, hs]
          rw [show ((normalizeGameName (some str)).data).map jsLower =
              (normalizeGameName (some str)).data from by rw [hdata]; exact hfix.1]
          rw [show stripSyms (normalizeGameName (some str)).data =
              (normalizeGameName (some str)).data from by rw [hdata]; exact hfix.2.1]
          rw [show collapseWs (normalizeGameName (some str)).data =
              (normalizeGameName (some str)).data from by rw [hdata]; exact hfix.2.2.1]
          rw [hdata]
          exact hfix.2.2.2
        rw [hpipe]

/-- Witness for the amended C2 at the specification's own stripping example:
its normalized form is fixed by both regex steps, so normalizing twice agrees
with normalizing once. -/
theorem normalize_idempotent_when_steps_fixed_witness :
    normalizeGameName (some (normalizeGameName (some "Mega Fortune™ (copy) 94%"))) =
      normalizeGameName (some "Mega Fortune™ (copy) 94%") :=
  normalize_idempotent_when_steps_fixed (some "Mega Fortune™ (copy) 94%")
    (by decide) (by decide)

end CertTool
